import Mathlib

/-!
Verification of the vectorizer backend (src/vectorizer-app/backend/main.py).

The development shallowly embeds the pure logic of the backend:

* the Python values that flow through the parameter dictionaries (`PyVal`),
  with Python dictionaries as association lists looked up / updated in place;
* the parameter validators `validate_potrace_params` and
  `validate_vtracer_params` (main.py lines 118-202), with Python
  exceptions modelled as `Except String`;
* the SVG normalizer `normalize_svg_dimensions` (main.py lines 208-229),
  with the three `re.sub` substitutions modelled as character-list scanners
  that follow Python's leftmost, non-overlapping `re.sub` semantics for the
  concrete patterns used by the source;
* the `/vectorize` request handler from the point where the parameter JSON
  has been parsed (main.py lines 476-533), with the two engine calls
  (an external process and a foreign library, both outside this repository)
  as oracle parameters.

Numbers: Python ints are `Int`, Python floats are `Rat` (the float values
appearing in the source and in the claims - bounds such as 0.0, 2.0, 50.0
and inputs such as "2.5" - are exactly representable, so rational
arithmetic coincides with float arithmetic on everything modelled here).
Python booleans are a subtype of int, which the embedding mirrors in
`isNum` and `ratOf`.
-/

-- Equality of results of the embedded fallible functions is decidable
-- componentwise.
deriving instance DecidableEq for Except

/-- Python values stored in the parameter dictionaries of the backend. -/
inductive PyVal where
  | int (n : ℤ)
  | float (q : ℚ)
  | bool (b : Bool)
  | str (s : String)
  | none
deriving DecidableEq

/-- A Python dict, as the backend uses it: string keys to `PyVal` values. -/
abbrev PyDict := List (String × PyVal)

/-- Python `d[k]` / `k in d`: the value at the first matching key. -/
def dlookup : List (String × α) → String → Option α
  | [], _ => Option.none
  | (k, v) :: d, key => if k = key then some v else dlookup d key

/-- Python `d[k] = v`: replace the value at an existing key in place
(keys are unique in a Python dict), appending when the key is absent. -/
def dset : List (String × α) → String → α → List (String × α)
  | [], key, v => [(key, v)]
  | (k, w) :: d, key, v => if k = key then (k, v) :: d else (k, w) :: dset d key v

/-- Python `isinstance(v, (int, float))`.  `True`/`False` satisfy this test
because `bool` is a subclass of `int` in Python. -/
def isNum : PyVal → Bool
  | PyVal.int _ => true
  | PyVal.float _ => true
  | PyVal.bool _ => true
  | _ => false

/-- Python `isinstance(v, str)`. -/
def isStr : PyVal → Bool
  | PyVal.str _ => true
  | _ => false

/-- Python `isinstance(v, bool)` (no other type subclasses `bool`). -/
def isBool : PyVal → Bool
  | PyVal.bool _ => true
  | _ => false

/-- Numeric value of a Python number (`True` counts as 1 and `False` as 0,
as in Python arithmetic and comparisons).  Only applied to values that
passed `isNum`; other constructors get a junk value of 0, which the
validators never observe because every comparison is guarded by an
`isinstance` check that raises first. -/
def ratOf : PyVal → ℚ
  | PyVal.int n => (n : ℚ)
  | PyVal.float q => q
  | PyVal.bool b => if b then 1 else 0
  | _ => 0

/-- Python `==` as used by the validators' `in` membership tests: strings
compare by content, numbers (including booleans) by numeric value, and
numbers never equal strings. -/
def pyEq (a b : PyVal) : Bool :=
  match a, b with
  | PyVal.str s, PyVal.str t => s = t
  | PyVal.str _, _ => false
  | _, PyVal.str _ => false
  | PyVal.none, PyVal.none => true
  | PyVal.none, _ => false
  | _, PyVal.none => false
  | a, b => ratOf a = ratOf b

/-- ASCII whitespace, the portion of Python's `\s` / `str.strip` character
class that can occur in the markup and form fields handled here. -/
def isWs (c : Char) : Bool :=
  c = ' ' || c = '\t' || c = '\n' || c = '\r' || c = '\x0b' || c = '\x0c'

/-- Strip leading and trailing whitespace, as `int()` and `float()` do. -/
def trimWs (l : List Char) : List Char :=
  ((l.dropWhile isWs).reverse.dropWhile isWs).reverse

/-- Consume one optional sign, returning (negative?, rest). -/
def signSplit : List Char → Bool × List Char
  | '-' :: cs => (true, cs)
  | '+' :: cs => (false, cs)
  | cs => (false, cs)

/-- Decimal value of a digit string. -/
def digitsVal (l : List Char) : ℕ :=
  l.foldl (fun a c => 10 * a + (c.toNat - 48)) 0

/-- Value of a nonempty all-digit string, `Option.none` otherwise. -/
def digitsToNat (l : List Char) : Option ℕ :=
  if l.isEmpty then Option.none
  else if l.all Char.isDigit then some (digitsVal l) else Option.none

/-- Python `int(s)` on the decimal strings produced by form fields:
optional surrounding whitespace, optional sign, one or more ASCII digits.
(Underscore digit grouping and non-ASCII digits are not modelled; no input
exercised here uses them.) -/
def pyInt (s : String) : Option ℤ :=
  let l := trimWs s.data
  let p := signSplit l
  (digitsToNat p.2).map (fun n => if p.1 then -(n : ℤ) else (n : ℤ))

/-- Python `float(s)` on finite decimal literals: optional surrounding
whitespace, optional sign, digits with an optional point (at least one
digit overall), optional exponent.  The value is assembled as one
normalized rational, signed-mantissa over a power of ten.  (The
`inf`/`nan` spellings and underscore grouping are not modelled; no input
exercised here uses them.) -/
def pyFloat (s : String) : Option ℚ :=
  let l := trimWs s.data
  let p := signSplit l
  let r := p.2
  let d1 := r.takeWhile Char.isDigit
  let r1 := r.drop d1.length
  let m : List Char × List Char × Bool :=
    match r1 with
    | '.' :: t =>
      let d2 := t.takeWhile Char.isDigit
      (d2, t.drop d2.length, !(d1.isEmpty && d2.isEmpty))
    | _ => ([], r1, !d1.isEmpty)
  if m.2.2 then
    let mant : ℤ :=
      if p.1 then -Int.ofNat (digitsVal (d1 ++ m.1))
      else Int.ofNat (digitsVal (d1 ++ m.1))
    let scale : ℕ := m.1.length
    match m.2.1 with
    | [] => some (mkRat mant (10 ^ scale))
    | e :: t =>
      if e = 'e' || e = 'E' then
        let pe := signSplit t
        match digitsToNat pe.2 with
        | some ex =>
          some (if pe.1 then mkRat mant (10 ^ (scale + ex))
                else mkRat (mant * 10 ^ ex) (10 ^ scale))
        | _ => Option.none
      else Option.none
  else Option.none

/-- The string-to-number coercion both validators apply to form-field
strings: `int(value) if '.' not in value else float(value)`
(main.py lines 123 and 175-178). -/
def coerceNum (s : String) : Option PyVal :=
  if s.data.contains '.' then (pyFloat s).map PyVal.float
  else (pyInt s).map PyVal.int

/-- Coercion step for a key coerced with the int-first rule
(`turdsize`, main.py lines 121-125). -/
def coerceKeyIntFloat (params : PyDict) (key : String) : Except String PyDict :=
  match dlookup params key with
  | some (PyVal.str s) =>
    match coerceNum s with
    | some w => Except.ok (dset params key w)
    | _ => Except.error (key ++ " must be a valid number")
  | _ => Except.ok params

/-- Coercion step for a key always coerced with `float()`
(`alphamax`, main.py lines 127-131). -/
def coerceKeyFloat (params : PyDict) (key : String) : Except String PyDict :=
  match dlookup params key with
  | some (PyVal.str s) =>
    match pyFloat s with
    | some q => Except.ok (dset params key (PyVal.float q))
    | _ => Except.error (key ++ " must be a valid number")
  | _ => Except.ok params

/-- Numeric bounds check of the potrace validator, e.g.
`not isinstance(params[k], (int, float)) or params[k] < 0 or params[k] > 100`
(main.py lines 133-139): absent key passes, non-number or out-of-range
value raises `msg`. -/
def checkNumRange (params : PyDict) (key : String) (lo hi : ℚ) (msg : String) :
    Except String Unit :=
  match dlookup params key with
  | some v =>
    if !(isNum v) || decide (ratOf v < lo) || decide (hi < ratOf v) then Except.error msg
    else Except.ok ()
  | _ => Except.ok ()

/-- The `valid_policies` list of main.py line 142. -/
def valid_policies : List String :=
  ["black", "white", "left", "right", "minority", "majority", "random"]

/-- Enum membership check (`params[k] not in values`, main.py lines 141-144). -/
def checkEnum (params : PyDict) (key : String) (vals : List String) :
    Except String Unit :=
  match dlookup params key with
  | some v =>
    if !(vals.any (fun s => pyEq v (PyVal.str s))) then
      Except.error (key ++ " must be one of: " ++ String.intercalate ", " vals)
    else Except.ok ()
  | _ => Except.ok ()

/-- Boolean type check (`not isinstance(params[k], bool)`,
main.py lines 146-152). -/
def checkBool (params : PyDict) (key : String) : Except String Unit :=
  match dlookup params key with
  | some v =>
    if !(isBool v) then Except.error (key ++ " must be a boolean")
    else Except.ok ()
  | _ => Except.ok ()

/-- The potrace parameter validator, main.py lines 118-152: coerce string
values of `turdsize` (int-first) and `alphamax` (`float()` only), then run
the range, enum and boolean checks in source order, raising on the first
violation.  The returned dict is the in-place-mutated input. -/
def validate_potrace_params (params : PyDict) : Except String PyDict :=
  match coerceKeyIntFloat params "turdsize" with
  | Except.error e => Except.error e
  | Except.ok p1 =>
  match coerceKeyFloat p1 "alphamax" with
  | Except.error e => Except.error e
  | Except.ok p2 =>
  match checkNumRange p2 "turdsize" 0 100 "turdsize must be a number between 0 and 100" with
  | Except.error e => Except.error e
  | Except.ok _ =>
  match checkNumRange p2 "alphamax" 0 2 "alphamax must be a number between 0.0 and 2.0" with
  | Except.error e => Except.error e
  | Except.ok _ =>
  match checkEnum p2 "turnpolicy" valid_policies with
  | Except.error e => Except.error e
  | Except.ok _ =>
  match checkBool p2 "invert" with
  | Except.error e => Except.error e
  | Except.ok _ =>
  match checkBool p2 "opticurve" with
  | Except.error e => Except.error e
  | Except.ok _ => Except.ok p2

/-- The declared type of a vtracer parameter: `str`, or the tuple
`(int, float)` (main.py lines 156-165). -/
inductive VType where
  | tStr
  | tNum
deriving DecidableEq

/-- One row of the vtracer `validations` table: declared type, optional
allowed string values, optional inclusive numeric range (bounds kept as
`PyVal` so the error message can render them as Python would), and whether
string values are coerced. -/
structure VSpec where
  ty : VType
  values : Option (List String)
  range : Option (PyVal × PyVal)
  convert : Bool
deriving DecidableEq

/-- The `validations` table of main.py lines 156-165, in source order. -/
def vtracer_validations : List (String × VSpec) :=
  [("colormode", VSpec.mk VType.tStr (some ["color", "binary"]) Option.none false),
   ("color_precision", VSpec.mk VType.tNum Option.none (some (PyVal.int 1, PyVal.int 8)) true),
   ("filter_speckle", VSpec.mk VType.tNum Option.none (some (PyVal.int 1, PyVal.int 100)) true),
   ("corner_threshold", VSpec.mk VType.tNum Option.none (some (PyVal.int 0, PyVal.int 180)) true),
   ("length_threshold", VSpec.mk VType.tNum Option.none (some (PyVal.float 0, PyVal.float 50)) true),
   ("max_iterations", VSpec.mk VType.tNum Option.none (some (PyVal.int 1, PyVal.int 100)) true),
   ("splice_threshold", VSpec.mk VType.tNum Option.none (some (PyVal.int 0, PyVal.int 180)) true),
   ("path_precision", VSpec.mk VType.tNum Option.none (some (PyVal.int 1, PyVal.int 10)) true)]

/-- Python `isinstance(value, validation['type'])`. -/
def typeOk (t : VType) (v : PyVal) : Bool :=
  match t with
  | VType.tStr => isStr v
  | VType.tNum => isNum v

/-- The type name(s) interpolated into the type-error message:
`validation['type'].__name__` or `' or '.join(t.__name__ for t in ...)`. -/
def typeName : VType → String
  | VType.tStr => "str"
  | VType.tNum => "int or float"

/-- Python `str()` of a range bound in the f-string of main.py line 202.
Only the integral bounds of the source table (such as 1, 180, 0.0 and
50.0) are ever rendered, so only the `den = 1` float case is exercised;
the final case is an unreached totalization. -/
def pyRepr : PyVal → String
  | PyVal.int n => toString n
  | PyVal.float q => if q.den = 1 then toString q.num ++ ".0" else toString q
  | PyVal.bool b => if b then "True" else "False"
  | PyVal.str s => s
  | PyVal.none => "None"

/-- Membership in `validation['values']`, `true` when the row has none. -/
def valuesOk (spec : VSpec) (v : PyVal) : Bool :=
  match spec.values with
  | some vs => vs.any (fun s => pyEq v (PyVal.str s))
  | _ => true

/-- Message for a failed `values` check (only read when the row has one). -/
def valuesMsg (key : String) (spec : VSpec) : String :=
  key ++ " must be one of: " ++ String.intercalate ", " (spec.values.getD [])

/-- The chained comparison `min_val <= value <= max_val`, `true` when the
row has no range. -/
def rangeOk (spec : VSpec) (v : PyVal) : Bool :=
  match spec.range with
  | some r => decide (ratOf r.1 ≤ ratOf v) && decide (ratOf v ≤ ratOf r.2)
  | _ => true

/-- Message for a failed range check (only read when the row has one). -/
def rangeMsg (key : String) (spec : VSpec) : String :=
  match spec.range with
  | some r => key ++ " must be between " ++ pyRepr r.1 ++ " and " ++ pyRepr r.2
  | _ => ""

/-- The body of the vtracer validation loop for one table row
(main.py lines 167-202): skip absent keys; coerce string values when
`convert` is set (updating the dict); then the type, values and range
checks in source order on the local (possibly coerced) value. -/
def validateVtKey (params : PyDict) (key : String) (spec : VSpec) :
    Except String PyDict :=
  match dlookup params key with
  | Option.none => Except.ok params
  | some value =>
    match
      (match value, spec.convert with
       | PyVal.str s, true =>
         (match coerceNum s with
          | some w => Except.ok (dset params key w, w)
          | _ => Except.error (key ++ " must be a valid number"))
       | _, _ => Except.ok (params, value)) with
    | Except.error e => Except.error e
    | Except.ok pv =>
      if !(typeOk spec.ty pv.2) then
        Except.error (key ++ " must be a " ++ typeName spec.ty)
      else if !(valuesOk spec pv.2) then Except.error (valuesMsg key spec)
      else if !(rangeOk spec pv.2) then Except.error (rangeMsg key spec)
      else Except.ok pv.1

/-- The `for param, validation in validations.items()` loop, raising on
the first violation. -/
def runValidations : PyDict → List (String × VSpec) → Except String PyDict
  | params, [] => Except.ok params
  | params, (k, spec) :: rest =>
    match validateVtKey params k spec with
    | Except.error e => Except.error e
    | Except.ok p2 => runValidations p2 rest

/-- The vtracer parameter validator, main.py lines 154-202. -/
def validate_vtracer_params (params : PyDict) : Except String PyDict :=
  runValidations params vtracer_validations

/-- Outcome of the `/vectorize` handler, starting after the upload and
JSON checks: either an HTTP error response produced by raising
`HTTPException(status, detail)`, or the JSON success payload with the
per-engine results mapping and the echoed (post-coercion) parameters. -/
inductive VectorizeOutcome where
  | httpError (status : ℕ) (detail : String)
  | success (results : List (String × String)) (parameters_used : List (String × PyDict))
deriving DecidableEq

/-- HTTP status of an outcome (a JSONResponse built without an explicit
status is a 200). -/
def VectorizeOutcome.status : VectorizeOutcome → ℕ
  | VectorizeOutcome.httpError s _ => s
  | VectorizeOutcome.success _ _ => 200

/-- Detail string of an error outcome. -/
def VectorizeOutcome.detail : VectorizeOutcome → String
  | VectorizeOutcome.httpError _ d => d
  | VectorizeOutcome.success _ _ => ""

/-- The per-engine slot of a success outcome, `Option.none` on errors or
when the engine was not run. -/
def VectorizeOutcome.engineResult : VectorizeOutcome → String → Option String
  | VectorizeOutcome.success rs _, k => dlookup rs k
  | _, _ => Option.none

/-- The validation phase of the handler (main.py lines 477-480):
`validate_potrace_params(params['potrace'])` when present, then
`validate_vtracer_params(params['vtracer'])` when present, each mutating
its sub-dict in place; a `ParameterValidationError` aborts the phase. -/
def validatePhase (params : List (String × PyDict)) :
    Except String (List (String × PyDict)) :=
  match
    (match dlookup params "potrace" with
     | some d =>
       (match validate_potrace_params d with
        | Except.error e => Except.error e
        | Except.ok d2 => Except.ok (dset params "potrace" d2))
     | _ => Except.ok params) with
  | Except.error e => Except.error e
  | Except.ok p1 =>
    match dlookup p1 "vtracer" with
    | some d =>
      (match validate_vtracer_params d with
       | Except.error e => Except.error e
       | Except.ok d2 => Except.ok (dset p1 "vtracer" d2))
    | _ => Except.ok p1

/-- Python `params.get(engine, {})`. -/
def engineParams (params : List (String × PyDict)) (k : String) : PyDict :=
  (dlookup params k).getD []

/-- One guarded engine invocation of main.py lines 489-515: on success the
slot holds the markup, on an exception the slot holds the
`"Error: "`-prefixed message; the surrounding request always continues. -/
def runEngine (engine : PyDict → Except String String) (p : PyDict) : String :=
  match engine p with
  | Except.ok svg => svg
  | Except.error e => "Error: " ++ e

/-- The `/vectorize` handler from the point where the parameter JSON has
been parsed (main.py lines 476-533).  The two engine methods
`potrace_vectorize` / `vtracer_vectorize` wrap external tools, so they
enter as oracles `potE` / `vtrE` returning markup or an exception message.
A `ParameterValidationError` becomes a 400 response (line 530-531); an
engine failure only fills that engine's slot.  When `selected_method` is
one of the two engine names only that engine runs, otherwise both run,
potrace first. -/
def vectorize_image (potE vtrE : PyDict → Except String String)
    (params : List (String × PyDict)) (selected_method : String) :
    VectorizeOutcome :=
  match validatePhase params with
  | Except.error e =>
    VectorizeOutcome.httpError 400 ("Parameter validation failed: " ++ e)
  | Except.ok ps =>
    let results : List (String × String) :=
      if selected_method = "potrace" then
        [("potrace", runEngine potE (engineParams ps "potrace"))]
      else if selected_method = "vtracer" then
        [("vtracer", runEngine vtrE (engineParams ps "vtracer"))]
      else
        [("potrace", runEngine potE (engineParams ps "potrace")),
         ("vtracer", runEngine vtrE (engineParams ps "vtracer"))]
    VectorizeOutcome.success results ps

/-- Length of the leading whitespace run, the unique amount `\s*` can
consume at a position: consuming less leaves a whitespace character where
the following literal expects a letter, so no backtracking alternative
exists for the patterns modelled here. -/
def wsLen : List Char → ℕ
  | [] => 0
  | c :: cs => if isWs c then wsLen cs + 1 else 0

/-- Length of the maximal `[^"]*` run.  Followed by a literal `"`, the
greedy run is the unique match: it ends exactly at the first quote (or
fails at end of input). -/
def nonQuoteLen : List Char → ℕ
  | [] => 0
  | c :: cs => if c = '"' then 0 else nonQuoteLen cs + 1

/-- Length of the maximal `[^>]*` run (nothing follows it in the pattern
`(<svg[^>]*)`, so greedy means maximal). -/
def nonGtLen : List Char → ℕ
  | [] => 0
  | c :: cs => if c = '>' then 0 else nonGtLen cs + 1

/-- Match of the regex `NAME[^"]*"` at the head of `l` (with `NAME` a
literal ending in a quote, such as `width="` or `viewBox="`): the number
of characters the match consumes, `Option.none` when it does not match
here. -/
def quotedMatchAt (name : List Char) (l : List Char) : Option ℕ :=
  if name.isPrefixOf l then
    let r := l.drop name.length
    let j := nonQuoteLen r
    if (r.drop j).isEmpty then Option.none else some (name.length + j + 1)
  else Option.none

/-- Match of the regex `\s*NAME[^"]*"` at the head of `l` (the patterns of
main.py lines 212-213 with `NAME` being `width="` or `height="`). -/
def wsAttrMatchAt (name : List Char) (l : List Char) : Option ℕ :=
  match quotedMatchAt name (l.drop (wsLen l)) with
  | some n => some (wsLen l + n)
  | _ => Option.none

/-- The literal `<svg` opening the root-tag pattern of main.py line 223. -/
def svgOpen : List Char := "<svg".data

/-- Match of the regex `(<svg[^>]*)` at the head of `l`. -/
def svgMatchAt (l : List Char) : Option ℕ :=
  if svgOpen.isPrefixOf l then
    some (svgOpen.length + nonGtLen (l.drop svgOpen.length))
  else Option.none

/-- Fuel-driven engine for Python `re.sub(pattern, repl, s)`: scan left to
right; at the first position where the pattern matches, emit the
replacement of the matched text and resume scanning right after the match;
otherwise emit the character and move one position right.  The fuel
argument (always started at the list length, which every step consumes at
least one of) makes the recursion structural; a degenerate empty match,
which none of the patterns modelled here can produce, is skipped like a
non-match. -/
def subAllF (m : List Char → Option ℕ) (repl : List Char → List Char) :
    ℕ → List Char → List Char
  | _, [] => []
  | 0, l => l
  | fuel + 1, c :: cs =>
    match m (c :: cs) with
    | some (n + 1) =>
      repl ((c :: cs).take (n + 1)) ++ subAllF m repl fuel ((c :: cs).drop (n + 1))
    | _ => c :: subAllF m repl fuel cs

/-- Python `re.sub` over the whole string. -/
def subF (m : List Char → Option ℕ) (repl : List Char → List Char)
    (l : List Char) : List Char :=
  subAllF m repl l.length l

/-- Fuel-driven count of the (leftmost, non-overlapping) matches `re.sub`
replaces. -/
def matchCountF (m : List Char → Option ℕ) : ℕ → List Char → ℕ
  | _, [] => 0
  | 0, _ => 0
  | fuel + 1, c :: cs =>
    match m (c :: cs) with
    | some (n + 1) => matchCountF m fuel ((c :: cs).drop (n + 1)) + 1
    | _ => matchCountF m fuel cs

/-- Number of matches `re.sub` would replace in `l`. -/
def matchCount (m : List Char → Option ℕ) (l : List Char) : ℕ :=
  matchCountF m l.length l

/-- Python `pat in s` substring containment. -/
def hasSub (pat : List Char) : List Char → Bool
  | [] => pat.isPrefixOf []
  | c :: cs => pat.isPrefixOf (c :: cs) || hasSub pat cs

/-- Number of positions at which `pat` occurs in `l`. -/
def countSub (pat : List Char) : List Char → ℕ
  | [] => if pat.isPrefixOf [] then 1 else 0
  | c :: cs => (if pat.isPrefixOf (c :: cs) then 1 else 0) + countSub pat cs

/-- The literal `width="` of the pattern on main.py line 212. -/
def widthPat : List Char := "width=\"".data

/-- The literal `height="` of the pattern on main.py line 213. -/
def heightPat : List Char := "height=\"".data

/-- The literal opening `viewBox="` of the pattern on main.py line 216. -/
def vbPat : List Char := "viewBox=\"".data

/-- The literal `viewBox=` of the membership test on main.py line 219. -/
def vbKey : List Char := "viewBox=".data

/-- The replacement text `viewBox="0 0 {width} {height}"` of main.py
line 217 (Python renders nonnegative ints in plain decimal, as
`Nat.repr` does). -/
def nvChars (w h : ℕ) : List Char :=
  "viewBox=\"0 0 ".data ++ (Nat.repr w).data ++ " ".data ++ (Nat.repr h).data
    ++ "\"".data

/-- Statement `svg_content = re.sub(r'\s*width="[^"]*"', '', svg_content)`
(main.py line 212). -/
def subWidth (l : List Char) : List Char :=
  subF (wsAttrMatchAt widthPat) (fun _ => []) l

/-- Statement `svg_content = re.sub(r'\s*height="[^"]*"', '', svg_content)`
(main.py line 213). -/
def subHeight (l : List Char) : List Char :=
  subF (wsAttrMatchAt heightPat) (fun _ => []) l

/-- Statement `re.sub(viewbox_pattern, new_viewbox, svg_content)`
(main.py line 220). -/
def subViewBox (nv : List Char) (l : List Char) : List Char :=
  subF (quotedMatchAt vbPat) (fun _ => nv) l

/-- Statement `re.sub(r'(<svg[^>]*)', f'\\1 {new_viewbox}', svg_content)`
(main.py line 223): each match is replaced by itself, a space and the new
viewBox attribute. -/
def subSvgTag (nv : List Char) (l : List Char) : List Char :=
  subF svgMatchAt (fun mt => mt ++ ' ' :: nv) l

/-- The try body of `normalize_svg_dimensions` on the character list. -/
def normalizeCore (l : List Char) (w h : ℕ) : List Char :=
  let l2 := subHeight (subWidth l)
  if hasSub vbKey l2 then subViewBox (nvChars w h) l2
  else subSvgTag (nvChars w h) l2

/-- The SVG normalizer `VectorizerService.normalize_svg_dimensions`
(main.py lines 208-229): strip every `width="..."` / `height="..."`
attribute, then rewrite every `viewBox="..."` attribute to
`viewBox="0 0 {w} {h}"` when the text `viewBox=` occurs anywhere, else
append the new viewBox attribute after every `<svg[^>]*` match. -/
def normalize_svg_dimensions (svg_content : String)
    (original_width original_height : ℕ) : String :=
  String.mk (normalizeCore svg_content.data original_width original_height)

/-- Value of the local variable `svg_content` after `k` of the three
assignments of the try body have completed.  The `except` handler of
main.py lines 227-229 returns exactly this current value when the next
statement raises, because the assignments of lines 212-223 rebind the
parameter in place. -/
def svgContentAfter (svg : String) (w h : ℕ) : ℕ → String
  | 0 => svg
  | 1 => String.mk (subWidth svg.data)
  | 2 => String.mk (subHeight (subWidth svg.data))
  | _ + 3 => normalize_svg_dimensions svg w h

/-- The try body of `normalize_svg_dimensions` with every Python statement
embedded as a step in the exception monad.  Each step is a total string
rewrite (`re.sub` with a fixed valid pattern on a `str`, the `in` test,
and an f-string over ints cannot raise), so each step enters as
`Except.ok`. -/
def normalizeTry (svg : String) (w h : ℕ) : Except String String :=
  match Except.ok (String.mk (subWidth svg.data)) with
  | Except.error e => Except.error (e : String)
  | Except.ok s1 =>
  match Except.ok (String.mk (subHeight s1.data)) with
  | Except.error e => Except.error e
  | Except.ok s2 =>
  if hasSub vbKey s2.data then
    Except.ok (String.mk (subViewBox (nvChars w h) s2.data))
  else
    Except.ok (String.mk (subSvgTag (nvChars w h) s2.data))

/-- Bounded-number test used to state claims about valid inputs:
a Python number (per `isinstance`, so booleans included) lying in the
inclusive range. -/
def numIn (v : PyVal) (lo hi : ℚ) : Bool :=
  isNum v && decide (lo ≤ ratOf v) && decide (ratOf v ≤ hi)

/-- Formalization of the claim's precondition for one potrace entry:
the key, when recognized, satisfies the validator's declared constraint
(numbers in range, with string values that coerce into range; the
enumerated turn policies; booleans for the two flags).  Unrecognized keys
carry no constraint. -/
def potraceEntryOk : String × PyVal → Bool := fun p =>
  if p.1 = "turdsize" then
    match p.2 with
    | PyVal.str s =>
      (match coerceNum s with
       | some w => numIn w 0 100
       | _ => false)
    | v => numIn v 0 100
  else if p.1 = "alphamax" then
    match p.2 with
    | PyVal.str s =>
      (match pyFloat s with
       | some q => decide ((0 : ℚ) ≤ q) && decide (q ≤ 2)
       | _ => false)
    | v => numIn v 0 2
  else if p.1 = "turnpolicy" then valid_policies.any (fun s => pyEq p.2 (PyVal.str s))
  else if p.1 = "invert" then isBool p.2
  else if p.1 = "opticurve" then isBool p.2
  else true

/-- Every entry of the mapping satisfies its potrace constraint. -/
def potraceValid (d : PyDict) : Bool := d.all potraceEntryOk

/-- Net effect of the potrace validator on a single value: the int-first
coercion for string `turdsize`, the `float()` coercion for string
`alphamax`, identity everywhere else (and on strings that fail to
parse, where the validator raises instead). -/
def potraceCoerceVal (k : String) (v : PyVal) : PyVal :=
  if k = "turdsize" then
    match v with
    | PyVal.str s => (coerceNum s).getD (PyVal.str s)
    | v => v
  else if k = "alphamax" then
    match v with
    | PyVal.str s =>
      (match pyFloat s with
       | some q => PyVal.float q
       | _ => PyVal.str s)
    | v => v
  else v

/-- The successful branch of `coerceKeyIntFloat` as a dict transformer. -/
def applyCoerceNum (d : PyDict) (key : String) : PyDict :=
  match dlookup d key with
  | some (PyVal.str s) =>
    (match coerceNum s with
     | some w => dset d key w
     | _ => d)
  | _ => d

/-- The successful branch of `coerceKeyFloat` as a dict transformer. -/
def applyCoerceFloat (d : PyDict) (key : String) : PyDict :=
  match dlookup d key with
  | some (PyVal.str s) =>
    (match pyFloat s with
     | some q => dset d key (PyVal.float q)
     | _ => d)
  | _ => d

/-- The vtracer constraint row for a key, when the key is recognized. -/
def tableSpec (k : String) : Option VSpec := dlookup vtracer_validations k

/-- The type, values and range checks of one vtracer row on one value. -/
def specChecksOk (spec : VSpec) (v : PyVal) : Bool :=
  typeOk spec.ty v && valuesOk spec v && rangeOk spec v

/-- Formalization of the claim's precondition for a vtracer value against
its row: string values of convertible keys must coerce and the (possibly
coerced) value must pass the row's checks. -/
def specValid (spec : VSpec) (v : PyVal) : Bool :=
  match v, spec.convert with
  | PyVal.str s, true =>
    (match coerceNum s with
     | some w => specChecksOk spec w
     | _ => false)
  | _, _ => specChecksOk spec v

/-- Formalization of the claim's precondition for one vtracer entry. -/
def vtracerEntryOk : String × PyVal → Bool := fun p =>
  match tableSpec p.1 with
  | some spec => specValid spec p.2
  | _ => true

/-- Every entry of the mapping satisfies its vtracer constraint. -/
def vtracerValid (e : PyDict) : Bool := e.all vtracerEntryOk

/-- Net effect of the vtracer validator on a single value: the int-first
coercion for string values of convertible recognized keys, identity
everywhere else. -/
def vtracerCoerceVal (k : String) (v : PyVal) : PyVal :=
  match tableSpec k with
  | some spec =>
    if spec.convert then
      match v with
      | PyVal.str s => (coerceNum s).getD (PyVal.str s)
      | v => v
    else v
  | _ => v

/-- The successful conversion branch of `validateVtKey` as a dict
transformer. -/
def applyVtCoerce (d : PyDict) (key : String) (spec : VSpec) : PyDict :=
  match dlookup d key, spec.convert with
  | some (PyVal.str s), true =>
    (match coerceNum s with
     | some w => dset d key w
     | _ => d)
  | _, _ => d

/-! Helper lemmas about the dictionary embedding. -/

theorem dlookup_dset_self (d : List (String × α)) (k : String) (v : α) :
    dlookup (dset d k v) k = some v := by
  induction d with
  | nil => simp [dset, dlookup]
  | cons p d ih =>
    obtain ⟨a, b⟩ := p
    by_cases h : a = k
    · simp [dset, dlookup, h]
    · simpa [dset, dlookup, h] using ih

theorem dlookup_dset_ne (d : List (String × α)) (k k2 : String) (v : α)
    (h : k2 ≠ k) : dlookup (dset d k v) k2 = dlookup d k2 := by
  have hk : k ≠ k2 := Ne.symm h
  induction d with
  | nil => simp [dset, dlookup, hk]
  | cons p d ih =>
    obtain ⟨a, b⟩ := p
    by_cases ha : a = k
    · simp [dset, dlookup, ha, hk]
    · by_cases ha2 : a = k2
      · simp [dset, dlookup, ha, ha2, h]
      · simpa [dset, dlookup, ha, ha2] using ih

theorem dset_map_fst_of_mem (d : List (String × α)) (k : String) (u v : α)
    (h : dlookup d k = some u) :
    (dset d k v).map Prod.fst = d.map Prod.fst := by
  induction d with
  | nil => simp [dlookup] at h
  | cons p d ih =>
    obtain ⟨a, b⟩ := p
    by_cases ha : a = k
    · simp [dset, ha]
    · simp only [dlookup, ha, if_neg ha] at h
      simpa [dset, ha] using ih h

theorem dlookup_mem (d : List (String × α)) (k : String) (v : α)
    (h : dlookup d k = some v) : (k, v) ∈ d := by
  induction d with
  | nil => simp [dlookup] at h
  | cons p d ih =>
    obtain ⟨a, b⟩ := p
    by_cases ha : a = k
    · subst ha
      simp [dlookup] at h
      subst h
      exact List.mem_cons_self _ _
    · simp only [dlookup, if_neg ha] at h
      exact List.mem_cons_of_mem _ (ih h)

theorem all_dset (d : List (String × α)) (P : String × α → Bool) (k : String)
    (v : α) (hall : d.all P = true) (hv : P (k, v) = true) :
    (dset d k v).all P = true := by
  induction d with
  | nil => simpa [dset]
  | cons p d ih =>
    obtain ⟨a, b⟩ := p
    simp only [List.all_cons, Bool.and_eq_true] at hall
    by_cases ha : a = k
    · subst ha
      simp [dset, List.all_cons, hv, hall.2]
    · simp [dset, ha, List.all_cons, hall.1, ih hall.2]

/-! Helper lemmas about the individual potrace checks. -/

theorem checkNumRange_ok (d : PyDict) (key : String) (lo hi : ℚ) (msg : String)
    (h : ∀ v, dlookup d key = some v → numIn v lo hi = true) :
    checkNumRange d key lo hi msg = Except.ok () := by
  unfold checkNumRange
  cases hv : dlookup d key with
  | none => rfl
  | some v =>
    have := h v hv
    simp only [numIn, Bool.and_eq_true, decide_eq_true_eq] at this
    simp [this.1.1, not_lt.mpr this.1.2, not_lt.mpr this.2]

theorem checkEnum_ok (d : PyDict) (key : String) (vals : List String)
    (h : ∀ v, dlookup d key = some v →
      vals.any (fun s => pyEq v (PyVal.str s)) = true) :
    checkEnum d key vals = Except.ok () := by
  unfold checkEnum
  cases hv : dlookup d key with
  | none => rfl
  | some v => simp [h v hv]

theorem checkBool_ok (d : PyDict) (key : String)
    (h : ∀ v, dlookup d key = some v → isBool v = true) :
    checkBool d key = Except.ok () := by
  unfold checkBool
  cases hv : dlookup d key with
  | none => rfl
  | some v => simp [h v hv]

/-- Claim C2, counterexample.  The claim states that a boolean value under
any numeric-constrained key makes the validator raise a
ParameterValidationError naming that key.  In fact Python booleans pass
the `isinstance(v, (int, float))` test (bool subclasses int), so
`turdsize=True` passes the potrace validator unchanged and
`color_precision=True` passes the vtracer validator unchanged:
no error is raised. -/
theorem C2_boolean_numeric_counterexample :
    validate_potrace_params [("turdsize", PyVal.bool true)] =
      Except.ok [("turdsize", PyVal.bool true)] ∧
    validate_vtracer_params [("color_precision", PyVal.bool true)] =
      Except.ok [("color_precision", PyVal.bool true)] := by
  decide

/-- Claim C2, amended.  Booleans are accepted by the numeric type checks
(bool is a subtype of int in Python, and the source checks
`isinstance(v, (int, float))` without excluding bool); they are then
range-checked by numeric value (`True` is 1, `False` is 0), so an
in-range boolean passes validation unchanged (e.g. `turdsize` or
`alphamax` set to either boolean) while an out-of-range boolean raises a
range error, not a type error (e.g. `color_precision=False`, whose value
0 is below the 1..8 range). -/
theorem C2_boolean_numeric_amended (b : Bool) :
    validate_potrace_params [("turdsize", PyVal.bool b)] =
      Except.ok [("turdsize", PyVal.bool b)] ∧
    validate_potrace_params [("alphamax", PyVal.bool b)] =
      Except.ok [("alphamax", PyVal.bool b)] ∧
    validate_vtracer_params [("color_precision", PyVal.bool false)] =
      Except.error "color_precision must be between 1 and 8" ∧
    validate_vtracer_params [("color_precision", PyVal.bool true)] =
      Except.ok [("color_precision", PyVal.bool true)] := by
  cases b <;> decide

/-- Claim C3, counterexample.  The claim states that whenever an internal
step of the normalizer fails, the function returns exactly the original
input markup unmodified.  The except handler of main.py line 229 actually
returns the current value of the `svg_content` variable, which the try
body rebinds statement by statement: if the second substitution raised
after the width-stripping assignment completed, the handler would return
the width-stripped intermediate, not the original. -/
theorem C3_normalizer_total_counterexample :
    svgContentAfter "<a width=\"1\" height=\"2\"/>" 100 50 1 =
      "<a height=\"2\"/>" ∧
    svgContentAfter "<a width=\"1\" height=\"2\"/>" 100 50 1 ≠
      "<a width=\"1\" height=\"2\"/>" := by
  decide

/-- Claim C3, amended.  The normalizer never raises: every statement of
the try body is a total string rewrite, so the body always reaches the
final return with the fully rewritten markup.  On a hypothetical internal
failure the except handler returns the current value of `svg_content`:
that is the original input only when the failure precedes the first
substitution; after all three assignments it is the normal result. -/
theorem C3_normalizer_total_amended (svg : String) (w h : ℕ) :
    normalizeTry svg w h = Except.ok (normalize_svg_dimensions svg w h) ∧
    svgContentAfter svg w h 0 = svg ∧
    (∀ k, svgContentAfter svg w h (k + 3) = normalize_svg_dimensions svg w h) := by
  refine ⟨?_, rfl, fun k => rfl⟩
  simp only [normalizeTry, normalize_svg_dimensions, normalizeCore]
  split <;> rfl

/-- Claim C5, confirmed.  `turdsize=101` makes the potrace validator raise
with the message "turdsize must be a number between 0 and 100" and the
request handler turns the ParameterValidationError into a 400 response
whose detail contains that message; `colormode="invalid"` likewise raises
"colormode must be one of: color, binary" and yields a 400 response
containing that message, whatever the engines would have done. -/
theorem C5_validation_error_messages
    (potE vtrE : PyDict → Except String String) :
    validate_potrace_params [("turdsize", PyVal.int 101)] =
      Except.error "turdsize must be a number between 0 and 100" ∧
    (vectorize_image potE vtrE [("potrace", [("turdsize", PyVal.int 101)])]
        "").status = 400 ∧
    hasSub "turdsize must be a number between 0 and 100".data
      (vectorize_image potE vtrE [("potrace", [("turdsize", PyVal.int 101)])]
        "").detail.data = true ∧
    validate_vtracer_params [("colormode", PyVal.str "invalid")] =
      Except.error "colormode must be one of: color, binary" ∧
    (vectorize_image potE vtrE
        [("vtracer", [("colormode", PyVal.str "invalid")])] "").status = 400 ∧
    hasSub "colormode must be one of: color, binary".data
      (vectorize_image potE vtrE
        [("vtracer", [("colormode", PyVal.str "invalid")])] "").detail.data =
      true := by
  exact ⟨by decide, rfl, rfl, by decide, rfl, rfl⟩

/-- Claim C7, confirmed.  When parameter validation succeeds and an
engine invocation raises (the engine that was requested: any selection
except the one that skips it), the request still succeeds: the response
is a 200 success, the failing engine's slot is the string
`"Error: " ++ message`, and the other engine's slot is exactly what it
would have been with any non-failing replacement for the failing
engine. -/
theorem C7_engine_failure_isolated
    (potE potE2 vtrE vtrE2 : PyDict → Except String String)
    (ps ps2 : List (String × PyDict)) (sel m : String)
    (hval : validatePhase ps = Except.ok ps2) :
    (potE (engineParams ps2 "potrace") = Except.error m → sel ≠ "vtracer" →
      (vectorize_image potE vtrE ps sel).status = 200 ∧
      (vectorize_image potE vtrE ps sel).engineResult "potrace" =
        some ("Error: " ++ m) ∧
      (vectorize_image potE vtrE ps sel).engineResult "vtracer" =
        (vectorize_image potE2 vtrE ps sel).engineResult "vtracer") ∧
    (vtrE (engineParams ps2 "vtracer") = Except.error m → sel ≠ "potrace" →
      (vectorize_image potE vtrE ps sel).status = 200 ∧
      (vectorize_image potE vtrE ps sel).engineResult "vtracer" =
        some ("Error: " ++ m) ∧
      (vectorize_image potE vtrE ps sel).engineResult "potrace" =
        (vectorize_image potE vtrE2 ps sel).engineResult "potrace") := by
  constructor
  · intro hp hsel
    by_cases h1 : sel = "potrace"
    · simp [vectorize_image, hval, h1, VectorizeOutcome.status,
        VectorizeOutcome.engineResult, dlookup, runEngine, hp]
    · by_cases h2 : sel = "vtracer"
      · exact absurd h2 hsel
      · simp [vectorize_image, hval, h1, h2, VectorizeOutcome.status,
          VectorizeOutcome.engineResult, dlookup, runEngine, hp]
  · intro hv hsel
    by_cases h1 : sel = "potrace"
    · exact absurd h1 hsel
    · by_cases h2 : sel = "vtracer"
      · simp [vectorize_image, hval, h1, h2, VectorizeOutcome.status,
          VectorizeOutcome.engineResult, dlookup, runEngine, hv]
      · simp [vectorize_image, hval, h1, h2, VectorizeOutcome.status,
          VectorizeOutcome.engineResult, dlookup, runEngine, hv]

/-- Claim C7, witness: a request with no parameters and no selected
method, a potrace engine that raises "boom" and any results for the
other oracles. -/
theorem C7_engine_failure_isolated_witness :
    (vectorize_image (fun _ => Except.error "boom") (fun _ => Except.ok "V")
        [] "").status = 200 ∧
    (vectorize_image (fun _ => Except.error "boom") (fun _ => Except.ok "V")
        [] "").engineResult "potrace" = some ("Error: " ++ "boom") ∧
    (vectorize_image (fun _ => Except.error "boom") (fun _ => Except.ok "V")
        [] "").engineResult "vtracer" =
      (vectorize_image (fun _ => Except.ok "P") (fun _ => Except.ok "V")
        [] "").engineResult "vtracer" :=
  (C7_engine_failure_isolated (fun _ => Except.error "boom")
      (fun _ => Except.ok "P") (fun _ => Except.ok "V") (fun _ => Except.ok "W")
      [] [] "" "boom" rfl).1 rfl (by decide)

/-- Absent keys are skipped by the vtracer validation loop. -/
theorem validateVtKey_absent (d : PyDict) (k : String) (spec : VSpec)
    (h : dlookup d k = Option.none) : validateVtKey d k spec = Except.ok d := by
  unfold validateVtKey
  rw [h]

/-- Claim C6, counterexample.  The claim states that every recognized
coercible key parses a decimal-point-free string as an integer.  The
`alphamax` key is coerced with `float()` unconditionally (main.py
line 129), so the string "2" becomes the float 2.0 there, not the
integer 2. -/
theorem C6_string_coercion_counterexample :
    validate_potrace_params [("alphamax", PyVal.str "2")] =
      Except.ok [("alphamax", PyVal.float 2)] ∧
    PyVal.float 2 ≠ PyVal.int 2 ∧
    validate_potrace_params [("alphamax", PyVal.str "2")] ≠
      Except.ok [("alphamax", PyVal.int 2)] := by
  decide

/-- Claim C6, amended.  For the int-first coercible keys (`turdsize` and
the convertible vtracer keys) a string with no decimal point is parsed as
an integer and one with a decimal point as a float, the parsed number
replacing the string in the mapping ("2" becomes the integer 2, "2.5" the
float 2.5); `alphamax` alone is always parsed with `float()` ("2" becomes
the float 2.0); a string that fails to parse raises a
ParameterValidationError stating the key "must be a valid number". -/
theorem C6_string_coercion_amended :
    validate_potrace_params [("turdsize", PyVal.str "2")] =
      Except.ok [("turdsize", PyVal.int 2)] ∧
    validate_vtracer_params [("color_precision", PyVal.str "2")] =
      Except.ok [("color_precision", PyVal.int 2)] ∧
    validate_vtracer_params [("length_threshold", PyVal.str "2.5")] =
      Except.ok [("length_threshold", PyVal.float (mkRat 5 2))] ∧
    validate_potrace_params [("alphamax", PyVal.str "2")] =
      Except.ok [("alphamax", PyVal.float 2)] ∧
    (∀ s n, s.data.contains '.' = false → pyInt s = some n →
      numIn (PyVal.int n) 0 100 = true →
      validate_potrace_params [("turdsize", PyVal.str s)] =
        Except.ok [("turdsize", PyVal.int n)]) ∧
    (∀ s q, s.data.contains '.' = true → pyFloat s = some q →
      numIn (PyVal.float q) 0 50 = true →
      validate_vtracer_params [("length_threshold", PyVal.str s)] =
        Except.ok [("length_threshold", PyVal.float q)]) ∧
    (∀ s, coerceNum s = Option.none →
      validate_potrace_params [("turdsize", PyVal.str s)] =
        Except.error "turdsize must be a valid number") ∧
    (∀ s, coerceNum s = Option.none →
      validate_vtracer_params [("filter_speckle", PyVal.str s)] =
        Except.error "filter_speckle must be a valid number") := by
  refine ⟨by decide, by decide, by decide, by decide, ?_, ?_, ?_, ?_⟩
  · intro s n hdot hint hin
    have hc : coerceNum s = some (PyVal.int n) := by
      unfold coerceNum
      rw [hdot]
      simp [hint]
    have h1 : coerceKeyIntFloat [("turdsize", PyVal.str s)] "turdsize" =
        Except.ok [("turdsize", PyVal.int n)] := by
      simp [coerceKeyIntFloat, dlookup, hc, dset]
    have h2 : coerceKeyFloat [("turdsize", PyVal.int n)] "alphamax" =
        Except.ok [("turdsize", PyVal.int n)] := by
      simp [coerceKeyFloat, dlookup]
    have h3 : checkNumRange [("turdsize", PyVal.int n)] "turdsize" 0 100
        "turdsize must be a number between 0 and 100" = Except.ok () := by
      apply checkNumRange_ok
      intro v hv
      simp [dlookup] at hv
      rw [← hv]
      exact hin
    have h4 : checkNumRange [("turdsize", PyVal.int n)] "alphamax" 0 2
        "alphamax must be a number between 0.0 and 2.0" = Except.ok () := by
      apply checkNumRange_ok
      intro v hv
      simp [dlookup] at hv
    have h5 : checkEnum [("turdsize", PyVal.int n)] "turnpolicy" valid_policies
        = Except.ok () := by
      apply checkEnum_ok
      intro v hv
      simp [dlookup] at hv
    have h6 : checkBool [("turdsize", PyVal.int n)] "invert" = Except.ok () := by
      apply checkBool_ok
      intro v hv
      simp [dlookup] at hv
    have h7 : checkBool [("turdsize", PyVal.int n)] "opticurve" = Except.ok () := by
      apply checkBool_ok
      intro v hv
      simp [dlookup] at hv
    simp only [validate_potrace_params, h1, h2, h3, h4, h5, h6, h7]
  · intro s q hdot hflo hin
    have hla : ∀ k2, k2 ≠ "length_threshold" →
        dlookup [("length_threshold", PyVal.str s)] k2 = Option.none := by
      intro k2 hk2
      simp [dlookup, Ne.symm hk2]
    have hstep : validateVtKey [("length_threshold", PyVal.str s)]
        "length_threshold"
        (VSpec.mk VType.tNum Option.none (some (PyVal.float 0, PyVal.float 50)) true) =
        Except.ok [("length_threshold", PyVal.float q)] := by
      simp only [numIn, Bool.and_eq_true, decide_eq_true_eq, ratOf] at hin
      unfold validateVtKey
      have hl : dlookup [("length_threshold", PyVal.str s)] "length_threshold" =
          some (PyVal.str s) := by simp [dlookup]
      rw [hl]
      have hc : coerceNum s = some (PyVal.float q) := by
        unfold coerceNum
        rw [hdot]
        simp [hflo]
      simp [hc, dset, typeOk, isNum, valuesOk, rangeOk, ratOf, hin.1.2, hin.2]
    have hstep2 : validateVtKey [("length_threshold", PyVal.float q)]
        "length_threshold"
        (VSpec.mk VType.tNum Option.none (some (PyVal.float 0, PyVal.float 50)) true) =
        Except.ok [("length_threshold", PyVal.float q)] := by
      unfold validateVtKey
      have hl : dlookup [("length_threshold", PyVal.float q)] "length_threshold" =
          some (PyVal.float q) := by simp [dlookup]
      rw [hl]
      simp only [numIn, Bool.and_eq_true, decide_eq_true_eq, ratOf] at hin
      simp [typeOk, isNum, valuesOk, rangeOk, ratOf, hin.1.2, hin.2]
    simp only [validate_vtracer_params, vtracer_validations, runValidations,
      validateVtKey_absent _ _ _ (hla "colormode" (by decide)),
      validateVtKey_absent _ _ _ (hla "color_precision" (by decide)),
      validateVtKey_absent _ _ _ (hla "filter_speckle" (by decide)),
      validateVtKey_absent _ _ _ (hla "corner_threshold" (by decide)),
      hstep]
    have hla2 : ∀ k2, k2 ≠ "length_threshold" →
        dlookup [("length_threshold", PyVal.float q)] k2 = Option.none := by
      intro k2 hk2
      simp [dlookup, Ne.symm hk2]
    simp only [runValidations,
      validateVtKey_absent _ _ _ (hla2 "max_iterations" (by decide)),
      validateVtKey_absent _ _ _ (hla2 "splice_threshold" (by decide)),
      validateVtKey_absent _ _ _ (hla2 "path_precision" (by decide))]
  · intro s hc
    have h1 : coerceKeyIntFloat [("turdsize", PyVal.str s)] "turdsize" =
        Except.error "turdsize must be a valid number" := by
      simp [coerceKeyIntFloat, dlookup, hc]
    simp only [validate_potrace_params, h1]
  · intro s hc
    have hla : ∀ k2, k2 ≠ "filter_speckle" →
        dlookup [("filter_speckle", PyVal.str s)] k2 = Option.none := by
      intro k2 hk2
      simp [dlookup, Ne.symm hk2]
    have hstep : validateVtKey [("filter_speckle", PyVal.str s)] "filter_speckle"
        (VSpec.mk VType.tNum Option.none (some (PyVal.int 1, PyVal.int 100)) true) =
        Except.error "filter_speckle must be a valid number" := by
      unfold validateVtKey
      have hl : dlookup [("filter_speckle", PyVal.str s)] "filter_speckle" =
          some (PyVal.str s) := by simp [dlookup]
      rw [hl]
      simp [hc]
    simp only [validate_vtracer_params, vtracer_validations, runValidations,
      validateVtKey_absent _ _ _ (hla "colormode" (by decide)),
      validateVtKey_absent _ _ _ (hla "color_precision" (by decide)),
      hstep]

/-- Claim C6, witness: the string "7" (no decimal point) is parsed as the
integer 7 for turdsize, "1.5" (decimal point) as the float 1.5 for
length_threshold, and the non-numeric string "abc" raises for both
validators. -/
theorem C6_string_coercion_witness :
    ("7" : String).data.contains '.' = false ∧ pyInt "7" = some 7 ∧
    numIn (PyVal.int 7) 0 100 = true ∧
    validate_potrace_params [("turdsize", PyVal.str "7")] =
      Except.ok [("turdsize", PyVal.int 7)] ∧
    ("1.5" : String).data.contains '.' = true ∧
    pyFloat "1.5" = some (mkRat 3 2) ∧
    validate_vtracer_params [("length_threshold", PyVal.str "1.5")] =
      Except.ok [("length_threshold", PyVal.float (mkRat 3 2))] ∧
    coerceNum "abc" = Option.none ∧
    validate_potrace_params [("turdsize", PyVal.str "abc")] =
      Except.error "turdsize must be a valid number" ∧
    validate_vtracer_params [("filter_speckle", PyVal.str "abc")] =
      Except.error "filter_speckle must be a valid number" :=
  ⟨by decide, by decide, by decide,
   C6_string_coercion_amended.2.2.2.2.1 "7" 7 (by decide) (by decide) (by decide),
   by decide, by decide,
   C6_string_coercion_amended.2.2.2.2.2.1 "1.5" (mkRat 3 2) (by decide) (by decide)
     (by decide),
   by decide,
   C6_string_coercion_amended.2.2.2.2.2.2.1 "abc" (by decide),
   C6_string_coercion_amended.2.2.2.2.2.2.2 "abc" (by decide)⟩

/-! Equations of the re.sub scanner: the fuel argument is invisible as
long as it starts at least at the list length. -/

theorem subAllF_congr (m : List Char → Option ℕ) (r : List Char → List Char) :
    ∀ (fuel : ℕ) (l : List Char), l.length ≤ fuel →
      subAllF m r fuel l = subF m r l := by
  intro fuel
  induction fuel using Nat.strong_induction_on with
  | _ fuel ih =>
    intro l hl
    match fuel, l with
    | f, [] => cases f <;> rfl
    | 0, c :: cs => simp at hl
    | fuel + 1, c :: cs =>
      have hcs : cs.length ≤ fuel := by
        simpa using hl
      show subAllF m r (fuel + 1) (c :: cs) = subAllF m r (c :: cs).length (c :: cs)
      rw [List.length_cons]
      rcases hm : m (c :: cs) with _ | n
      · simp only [subAllF, hm]
        rw [ih fuel (Nat.lt_succ_self _) cs hcs,
          ih cs.length (Nat.lt_succ_of_le hcs) cs (le_refl _)]
      · match n with
        | 0 =>
          simp only [subAllF, hm]
          rw [ih fuel (Nat.lt_succ_self _) cs hcs,
            ih cs.length (Nat.lt_succ_of_le hcs) cs (le_refl _)]
        | n + 1 =>
          simp only [subAllF, hm]
          have hd : ((c :: cs).drop (n + 1)).length ≤ cs.length := by
            simp [Nat.sub_le]
          rw [ih fuel (Nat.lt_succ_self _) _ (le_trans hd hcs),
            ih cs.length (Nat.lt_succ_of_le hcs) _ hd]

theorem subF_nil (m : List Char → Option ℕ) (r : List Char → List Char) :
    subF m r [] = [] := rfl

theorem subF_cons_none (m : List Char → Option ℕ) (r : List Char → List Char)
    (c : Char) (cs : List Char) (h : m (c :: cs) = Option.none) :
    subF m r (c :: cs) = c :: subF m r cs := by
  show subAllF m r (c :: cs).length (c :: cs) = _
  rw [List.length_cons]
  simp only [subAllF, h]
  rfl

theorem subF_cons_zero (m : List Char → Option ℕ) (r : List Char → List Char)
    (c : Char) (cs : List Char) (h : m (c :: cs) = some 0) :
    subF m r (c :: cs) = c :: subF m r cs := by
  show subAllF m r (c :: cs).length (c :: cs) = _
  rw [List.length_cons]
  simp only [subAllF, h]
  rfl

theorem subF_cons_match (m : List Char → Option ℕ) (r : List Char → List Char)
    (c : Char) (cs : List Char) (n : ℕ) (h : m (c :: cs) = some (n + 1)) :
    subF m r (c :: cs) =
      r ((c :: cs).take (n + 1)) ++ subF m r ((c :: cs).drop (n + 1)) := by
  show subAllF m r (c :: cs).length (c :: cs) = _
  rw [List.length_cons]
  simp only [subAllF, h]
  congr 1
  apply subAllF_congr
  simp [Nat.sub_le]

theorem matchCountF_congr (m : List Char → Option ℕ) :
    ∀ (fuel : ℕ) (l : List Char), l.length ≤ fuel →
      matchCountF m fuel l = matchCount m l := by
  intro fuel
  induction fuel using Nat.strong_induction_on with
  | _ fuel ih =>
    intro l hl
    match fuel, l with
    | f, [] => cases f <;> rfl
    | 0, c :: cs => simp at hl
    | fuel + 1, c :: cs =>
      have hcs : cs.length ≤ fuel := by
        simpa using hl
      show matchCountF m (fuel + 1) (c :: cs) =
        matchCountF m (c :: cs).length (c :: cs)
      rw [List.length_cons]
      rcases hm : m (c :: cs) with _ | n
      · simp only [matchCountF, hm]
        rw [ih fuel (Nat.lt_succ_self _) cs hcs,
          ih cs.length (Nat.lt_succ_of_le hcs) cs (le_refl _)]
      · match n with
        | 0 =>
          simp only [matchCountF, hm]
          rw [ih fuel (Nat.lt_succ_self _) cs hcs,
            ih cs.length (Nat.lt_succ_of_le hcs) cs (le_refl _)]
        | n + 1 =>
          simp only [matchCountF, hm]
          have hd : ((c :: cs).drop (n + 1)).length ≤ cs.length := by
            simp [Nat.sub_le]
          rw [ih fuel (Nat.lt_succ_self _) _ (le_trans hd hcs),
            ih cs.length (Nat.lt_succ_of_le hcs) _ hd]

theorem matchCount_nil (m : List Char → Option ℕ) : matchCount m [] = 0 := rfl

theorem matchCount_cons_none (m : List Char → Option ℕ) (c : Char)
    (cs : List Char) (h : m (c :: cs) = Option.none) :
    matchCount m (c :: cs) = matchCount m cs := by
  show matchCountF m (c :: cs).length (c :: cs) = _
  rw [List.length_cons]
  simp only [matchCountF, h]
  rfl

theorem matchCount_cons_match (m : List Char → Option ℕ) (c : Char)
    (cs : List Char) (n : ℕ) (h : m (c :: cs) = some (n + 1)) :
    matchCount m (c :: cs) = matchCount m ((c :: cs).drop (n + 1)) + 1 := by
  show matchCountF m (c :: cs).length (c :: cs) = _
  rw [List.length_cons]
  simp only [matchCountF, h]
  congr 1
  apply matchCountF_congr
  simp [Nat.sub_le]

/-- A scan with no match anywhere leaves the string unchanged. -/
theorem subF_eq_self (m : List Char → Option ℕ) (r : List Char → List Char)
    (l : List Char) (h : ∀ i, m (l.drop i) = Option.none) : subF m r l = l := by
  induction l with
  | nil => rfl
  | cons c cs ih =>
    rw [subF_cons_none m r c cs (by simpa using h 0)]
    rw [ih (fun i => by simpa using h (i + 1))]

/-- A bounded no-match hypothesis extends to all positions for a matcher
that rejects the empty string. -/
theorem no_match_all (m : List Char → Option ℕ) (hnil : m [] = Option.none)
    (l : List Char) (h : ∀ i < l.length, m (l.drop i) = Option.none) :
    ∀ i, m (l.drop i) = Option.none := by
  intro i
  by_cases hi : i < l.length
  · exact h i hi
  · rw [List.drop_eq_nil_of_le (le_of_not_lt hi)]
    exact hnil

/-- Scanning an appended string whose left part admits no match start
leaves the left part intact and scans the right part. -/
theorem subF_append_left (m : List Char → Option ℕ) (r : List Char → List Char)
    (x y : List Char)
    (h : ∀ i < x.length, m ((x ++ y).drop i) = Option.none) :
    subF m r (x ++ y) = x ++ subF m r y := by
  induction x with
  | nil => simp
  | cons c x2 ih =>
    have h0 : m (c :: (x2 ++ y)) = Option.none := by
      simpa using h 0 (by simp)
    rw [List.cons_append, subF_cons_none m r _ _ h0]
    rw [ih (fun i hi => by simpa using h (i + 1) (by simpa using Nat.succ_lt_succ hi))]
    rfl

/-- A scan each of whose matches is replaced by its own text leaves the
string unchanged. -/
theorem subF_id_of_fixed (m : List Char → Option ℕ) (r : List Char → List Char) :
    ∀ (k : ℕ) (l : List Char), l.length ≤ k →
      (∀ i n, m (l.drop i) = some n → r ((l.drop i).take n) = (l.drop i).take n) →
      subF m r l = l := by
  intro k
  induction k with
  | zero =>
    intro l hl _
    have hl0 : l = [] := List.length_eq_zero.mp (Nat.le_zero.mp hl)
    rw [hl0]
    rfl
  | succ k ih =>
    intro l hl hr
    match l with
    | [] => rfl
    | c :: cs =>
      have hcs : cs.length ≤ k := by simpa using hl
      rcases hm : m (c :: cs) with _ | n
      · rw [subF_cons_none m r c cs hm]
        rw [ih cs hcs (fun i n hmi => by simpa using hr (i + 1) n (by simpa using hmi))]
      · match n with
        | 0 =>
          rw [subF_cons_zero m r c cs hm]
          rw [ih cs hcs (fun i n hmi => by simpa using hr (i + 1) n (by simpa using hmi))]
        | n + 1 =>
          rw [subF_cons_match m r c cs n hm]
          have hr0 : r ((c :: cs).take (n + 1)) = (c :: cs).take (n + 1) := by
            simpa using hr 0 (n + 1) (by simpa using hm)
          rw [hr0]
          have hlen : ((c :: cs).drop (n + 1)).length ≤ k :=
            le_trans (by simp [Nat.sub_le]) hcs
          rw [ih ((c :: cs).drop (n + 1)) hlen ?_]
          · exact List.take_append_drop _ _
          · intro i n2 hmi
            rw [List.drop_drop] at hmi ⊢
            exact hr (n + 1 + i) n2 hmi

/-- Claim C8, counterexample.  The claim states that markup with no
root-element match is returned unchanged.  The width/height stripping of
main.py lines 212-213 runs on the whole text before the root tag is
looked for, so an input whose root pattern never matches still loses its
width attribute. -/
theorem C8_no_root_counterexample :
    (∀ i < ("<rect width=\"5\"/>" : String).data.length,
      svgMatchAt (("<rect width=\"5\"/>" : String).data.drop i) = Option.none) ∧
    normalize_svg_dimensions "<rect width=\"5\"/>" 100 50 = "<rect/>" ∧
    normalize_svg_dimensions "<rect width=\"5\"/>" 100 50 ≠
      "<rect width=\"5\"/>" := by
  decide

/-- Claim C8, amended.  Markup with no root-element match is returned
unchanged provided it also contains no match of the width or height
attribute patterns and no occurrence of the text `viewBox=` - the three
substitutions and the membership test of lines 212-223 are the only ways
the function can alter its input. -/
theorem C8_no_root_amended (s : String) (w h : ℕ)
    (hw : ∀ i < s.data.length,
      wsAttrMatchAt widthPat (s.data.drop i) = Option.none)
    (hh : ∀ i < s.data.length,
      wsAttrMatchAt heightPat (s.data.drop i) = Option.none)
    (hvb : hasSub vbKey s.data = false)
    (hsvg : ∀ i < s.data.length, svgMatchAt (s.data.drop i) = Option.none) :
    normalize_svg_dimensions s w h = s := by
  obtain ⟨d⟩ := s
  have e1 : subWidth d = d :=
    subF_eq_self _ _ _ (no_match_all _ (by decide) _ hw)
  have e2 : subHeight d = d :=
    subF_eq_self _ _ _ (no_match_all _ (by decide) _ hh)
  have e3 : subSvgTag (nvChars w h) d = d :=
    subF_eq_self _ _ _ (no_match_all _ (by decide) _ hsvg)
  show String.mk (normalizeCore d w h) = String.mk d
  unfold normalizeCore
  rw [e1, e2]
  simp [show hasSub vbKey d = false from hvb, e3]

/-- Claim C8, witness: plain text with no markup at all is returned
unchanged. -/
theorem C8_no_root_witness :
    normalize_svg_dimensions "hello" 100 50 = "hello" :=
  C8_no_root_amended "hello" 100 50 (by decide) (by decide) (by decide)
    (by decide)

/-- The greedy `[^"]*` run over quote-free text stops at the closing
quote. -/
theorem nonQuoteLen_append (v b : List Char) (hv : '"' ∉ v) :
    nonQuoteLen (v ++ '"' :: b) = v.length := by
  induction v with
  | nil => simp [nonQuoteLen]
  | cons c v ih =>
    have hc : ¬c = '"' := fun h => hv (h ▸ List.mem_cons_self _ _)
    simp [nonQuoteLen, hc, ih (fun hm => hv (List.mem_cons_of_mem _ hm))]

/-- The quoted-attribute pattern matches exactly at a literal occurrence
of the attribute: the match consumes the name, the quote-free value and
the closing quote. -/
theorem quotedMatchAt_exact (name v b : List Char) (hv : '"' ∉ v) :
    quotedMatchAt name (name ++ (v ++ '"' :: b)) =
      some (name.length + v.length + 1) := by
  unfold quotedMatchAt
  have hpre : name.isPrefixOf (name ++ (v ++ '"' :: b)) = true := by
    rw [List.isPrefixOf_iff_prefix]
    exact List.prefix_append _ _
  rw [hpre]
  simp only [if_true, List.drop_left, nonQuoteLen_append v b hv]
  rfl

/-- The width pattern matches exactly at a literal, space-preceded
`width="v"` occurrence. -/
theorem wsAttr_exact_width (v b : List Char) (hv : '"' ∉ v) :
    wsAttrMatchAt widthPat (' ' :: (widthPat ++ (v ++ '"' :: b))) =
      some (v.length + 9) := by
  have hws : wsLen (' ' :: (widthPat ++ (v ++ '"' :: b))) = 1 := by
    have hw7 : widthPat = 'w' :: "idth=\"".data := by decide
    rw [hw7]
    simp [wsLen, isWs]
  unfold wsAttrMatchAt
  rw [hws]
  simp only [List.drop_succ_cons, List.drop_zero]
  rw [quotedMatchAt_exact widthPat v b hv]
  have : widthPat.length = 7 := by decide
  simp [this]
  omega

/-- The height pattern matches exactly at a literal, space-preceded
`height="v"` occurrence. -/
theorem wsAttr_exact_height (v b : List Char) (hv : '"' ∉ v) :
    wsAttrMatchAt heightPat (' ' :: (heightPat ++ (v ++ '"' :: b))) =
      some (v.length + 10) := by
  have hws : wsLen (' ' :: (heightPat ++ (v ++ '"' :: b))) = 1 := by
    have hw8 : heightPat = 'h' :: "eight=\"".data := by decide
    rw [hw8]
    simp [wsLen, isWs]
  unfold wsAttrMatchAt
  rw [hws]
  simp only [List.drop_succ_cons, List.drop_zero]
  rw [quotedMatchAt_exact heightPat v b hv]
  have : heightPat.length = 8 := by decide
  simp [this]
  omega

/-- The normalizer depends on its input only through the width pass. -/
theorem normalizeCore_congr_subWidth (l1 l2 : List Char) (w h : ℕ)
    (hsw : subWidth l1 = subWidth l2) :
    normalizeCore l1 w h = normalizeCore l2 w h := by
  unfold normalizeCore
  rw [hsw]

/-- The width scan consumes a literal space-preceded attribute occurrence
whole, leaving the rest of the scan unchanged. -/
theorem subWidth_exact_occurrence (v b : List Char) (hv : '"' ∉ v) :
    subWidth (' ' :: (widthPat ++ (v ++ '"' :: b))) = subWidth b := by
  have hm := wsAttr_exact_width v b hv
  have h9 : v.length + 9 = (v.length + 8) + 1 := by omega
  rw [h9] at hm
  unfold subWidth
  rw [subF_cons_match _ _ _ _ _ hm]
  have hdrop : (' ' :: (widthPat ++ (v ++ '"' :: b))).drop (v.length + 8 + 1) = b := by
    have hlen : (' ' :: (widthPat ++ (v ++ '"' :: []))).length = v.length + 9 := by
      simp [widthPat]
    have : (' ' :: (widthPat ++ (v ++ '"' :: b))) =
        (' ' :: (widthPat ++ (v ++ ['"']))) ++ b := by
      simp
    rw [this, show v.length + 8 + 1 = (' ' :: (widthPat ++ (v ++ ['"']))).length from by
      simp [widthPat]]
    exact List.drop_left _ _
  rw [hdrop]
  rfl

/-- The height scan consumes a literal space-preceded attribute occurrence
whole, leaving the rest of the scan unchanged. -/
theorem subHeight_exact_occurrence (v b : List Char) (hv : '"' ∉ v) :
    subHeight (' ' :: (heightPat ++ (v ++ '"' :: b))) = subHeight b := by
  have hm := wsAttr_exact_height v b hv
  have h10 : v.length + 10 = (v.length + 9) + 1 := by omega
  rw [h10] at hm
  unfold subHeight
  rw [subF_cons_match _ _ _ _ _ hm]
  have hdrop : (' ' :: (heightPat ++ (v ++ '"' :: b))).drop (v.length + 9 + 1) = b := by
    have : (' ' :: (heightPat ++ (v ++ '"' :: b))) =
        (' ' :: (heightPat ++ (v ++ ['"']))) ++ b := by
      simp
    rw [this, show v.length + 9 + 1 = (' ' :: (heightPat ++ (v ++ ['"']))).length from by
      simp [heightPat]]
    exact List.drop_left _ _
  rw [hdrop]
  rfl

/-- The normalizer depends on its input only through the two stripping
passes. -/
theorem normalizeCore_congr_stripped (l1 l2 : List Char) (w h : ℕ)
    (hs : subHeight (subWidth l1) = subHeight (subWidth l2)) :
    normalizeCore l1 w h = normalizeCore l2 w h := by
  unfold normalizeCore
  rw [hs]

/-- Claim C10, confirmed.  The width/height stripping of the normalizer is
document-global, not root-scoped: a double-quoted width (or height)
attribute occurring anywhere in the text - the surrounding context `a`/`b`
is arbitrary, in particular it need not contain any root markup element -
is removed, the output being the same as for the text without the
attribute.  The side conditions say only that no width/height attribute
pattern match starts inside the prefix `a`, so the occurrence under
consideration is a genuine attribute occurrence rather than a fragment of
an overlapping one. -/
theorem C10_global_stripping (w h : ℕ) :
    (∀ a v b : List Char, '"' ∉ v →
      (∀ i < a.length, wsAttrMatchAt widthPat
        ((a ++ (' ' :: (widthPat ++ (v ++ '"' :: b)))).drop i) = Option.none) →
      (∀ i < a.length, wsAttrMatchAt widthPat ((a ++ b).drop i) = Option.none) →
      normalizeCore (a ++ (' ' :: (widthPat ++ (v ++ '"' :: b)))) w h =
        normalizeCore (a ++ b) w h) ∧
    (∀ a v b : List Char, '"' ∉ v →
      (∀ i < (a ++ (' ' :: (heightPat ++ (v ++ '"' :: b)))).length,
        wsAttrMatchAt widthPat
          ((a ++ (' ' :: (heightPat ++ (v ++ '"' :: b)))).drop i) = Option.none) →
      (∀ i < (a ++ b).length,
        wsAttrMatchAt widthPat ((a ++ b).drop i) = Option.none) →
      (∀ i < a.length, wsAttrMatchAt heightPat
        ((a ++ (' ' :: (heightPat ++ (v ++ '"' :: b)))).drop i) = Option.none) →
      (∀ i < a.length, wsAttrMatchAt heightPat ((a ++ b).drop i) = Option.none) →
      normalizeCore (a ++ (' ' :: (heightPat ++ (v ++ '"' :: b)))) w h =
        normalizeCore (a ++ b) w h) := by
  constructor
  · intro a v b hv hx hx2
    apply normalizeCore_congr_subWidth
    have e1 : subWidth (a ++ (' ' :: (widthPat ++ (v ++ '"' :: b)))) =
        a ++ subWidth b := by
      unfold subWidth
      rw [subF_append_left _ _ a _ hx]
      congr 1
      exact subWidth_exact_occurrence v b hv
    have e2 : subWidth (a ++ b) = a ++ subWidth b :=
      subF_append_left _ _ a b hx2
    rw [e1, e2]
  · intro a v b hv hxw hxw2 hy hy2
    apply normalizeCore_congr_stripped
    have e1 : subWidth (a ++ (' ' :: (heightPat ++ (v ++ '"' :: b)))) =
        a ++ (' ' :: (heightPat ++ (v ++ '"' :: b))) :=
      subF_eq_self _ _ _ (no_match_all _ (by decide) _ hxw)
    have e2 : subWidth (a ++ b) = a ++ b :=
      subF_eq_self _ _ _ (no_match_all _ (by decide) _ hxw2)
    rw [e1, e2]
    have e3 : subHeight (a ++ (' ' :: (heightPat ++ (v ++ '"' :: b)))) =
        a ++ subHeight b := by
      unfold subHeight
      rw [subF_append_left _ _ a _ hy]
      congr 1
      exact subHeight_exact_occurrence v b hv
    have e4 : subHeight (a ++ b) = a ++ subHeight b :=
      subF_append_left _ _ a b hy2
    rw [e3, e4]

/-- Claim C10, witness: a width attribute on a non-root element and a
height attribute in a document with no root element at all are both
stripped. -/
theorem C10_global_stripping_witness :
    normalizeCore ("<g".data ++ (' ' :: (widthPat ++ ("5".data ++ '"' ::
        " x=\"2\"/>".data)))) 100 50 =
      normalizeCore ("<g".data ++ " x=\"2\"/>".data) 100 50 ∧
    normalizeCore ("<g".data ++ (' ' :: (heightPat ++ ("7".data ++ '"' ::
        "/>".data)))) 100 50 =
      normalizeCore ("<g".data ++ "/>".data) 100 50 :=
  ⟨(C10_global_stripping 100 50).1 "<g".data "5".data " x=\"2\"/>".data
      (by decide) (by decide) (by decide),
   (C10_global_stripping 100 50).2 "<g".data "7".data "/>".data
      (by decide) (by decide) (by decide) (by decide) (by decide)⟩

/-- A fixed-point criterion for the normalizer: markup with no residual
width/height attribute match, in which every double-quoted viewBox match
is already the target attribute (when the text `viewBox=` occurs), and
with no root-tag match otherwise, is left unchanged. -/
theorem normalize_fixed_point (t : String) (w h : ℕ)
    (hw : ∀ i < t.data.length,
      wsAttrMatchAt widthPat (t.data.drop i) = Option.none)
    (hh : ∀ i < t.data.length,
      wsAttrMatchAt heightPat (t.data.drop i) = Option.none)
    (hvb : hasSub vbKey t.data = true → ∀ i < t.data.length,
      (quotedMatchAt vbPat (t.data.drop i)).all
        (fun n => (t.data.drop i).take n == nvChars w h) = true)
    (hsvg : hasSub vbKey t.data = false →
      ∀ i < t.data.length, svgMatchAt (t.data.drop i) = Option.none) :
    normalize_svg_dimensions t w h = t := by
  obtain ⟨d⟩ := t
  have e1 : subWidth d = d :=
    subF_eq_self _ _ _ (no_match_all _ (by decide) _ hw)
  have e2 : subHeight d = d :=
    subF_eq_self _ _ _ (no_match_all _ (by decide) _ hh)
  show String.mk (normalizeCore d w h) = String.mk d
  unfold normalizeCore
  rw [e1, e2]
  by_cases hb : hasSub vbKey d = true
  · simp only [hb, if_true]
    congr 1
    show subF (quotedMatchAt vbPat) (fun _ => nvChars w h) d = d
    apply subF_id_of_fixed _ _ d.length d (le_refl _)
    intro i n hm
    by_cases hi : i < d.length
    · have hall := hvb hb i hi
      rw [hm] at hall
      simp only [Option.all] at hall
      exact (eq_of_beq hall).symm
    · exfalso
      rw [List.drop_eq_nil_of_le (le_of_not_lt hi)] at hm
      rw [show quotedMatchAt vbPat ([] : List Char) = Option.none from by decide]
        at hm
      cases hm
  · have hb2 : hasSub vbKey d = false := by
      cases hq : hasSub vbKey d
      · rfl
      · exact absurd hq hb
    simp only [hb2, Bool.false_eq_true, if_false]
    congr 1
    exact subF_eq_self _ _ _ (no_match_all _ (by decide) _ (hsvg hb2))

/-- Claim C9, counterexample.  The claim states the normalizer is
idempotent.  A single left-to-right re.sub pass can splice the pieces
around a removed attribute into new attribute text: the input
wiwidth="x"dth="y" normalizes to width="y", which a second application
strips to the empty string. -/
theorem C9_idempotent_counterexample :
    normalize_svg_dimensions "wiwidth=\"x\"dth=\"y\"" 100 50 = "width=\"y\"" ∧
    normalize_svg_dimensions
        (normalize_svg_dimensions "wiwidth=\"x\"dth=\"y\"" 100 50) 100 50 = "" ∧
    normalize_svg_dimensions
        (normalize_svg_dimensions "wiwidth=\"x\"dth=\"y\"" 100 50) 100 50 ≠
      normalize_svg_dimensions "wiwidth=\"x\"dth=\"y\"" 100 50 := by
  decide

/-- Claim C9, amended.  The normalizer is idempotent on every input whose
first output contains no residual width/height attribute pattern match
and whose viewBox phase is stable (every double-quoted viewBox match in
the output already reads viewBox="0 0 w h" when the text viewBox= occurs
in it, and no root-tag match remains otherwise) - in particular on all
well-formed markup.  On pathological inputs where the single
left-to-right re.sub pass splices new attribute text out of the fragments
surrounding removed matches, a second application differs. -/
theorem C9_idempotent_amended (s : String) (w h : ℕ)
    (hw : ∀ i < (normalize_svg_dimensions s w h).data.length,
      wsAttrMatchAt widthPat ((normalize_svg_dimensions s w h).data.drop i) =
        Option.none)
    (hh : ∀ i < (normalize_svg_dimensions s w h).data.length,
      wsAttrMatchAt heightPat ((normalize_svg_dimensions s w h).data.drop i) =
        Option.none)
    (hvb : hasSub vbKey (normalize_svg_dimensions s w h).data = true →
      ∀ i < (normalize_svg_dimensions s w h).data.length,
      (quotedMatchAt vbPat ((normalize_svg_dimensions s w h).data.drop i)).all
        (fun n => ((normalize_svg_dimensions s w h).data.drop i).take n ==
          nvChars w h) = true)
    (hsvg : hasSub vbKey (normalize_svg_dimensions s w h).data = false →
      ∀ i < (normalize_svg_dimensions s w h).data.length,
      svgMatchAt ((normalize_svg_dimensions s w h).data.drop i) = Option.none) :
    normalize_svg_dimensions (normalize_svg_dimensions s w h) w h =
      normalize_svg_dimensions s w h :=
  normalize_fixed_point _ w h hw hh hvb hsvg

/-- Claim C9, witness: a second normalization of the output for the plain
root tag input is the identity. -/
theorem C9_idempotent_witness :
    normalize_svg_dimensions (normalize_svg_dimensions "<svg>" 100 50) 100 50 =
      normalize_svg_dimensions "<svg>" 100 50 :=
  C9_idempotent_amended "<svg>" 100 50 (by decide) (by decide) (by decide)
    (by decide)

/-- A successful coercion yields an int or a float. -/
theorem coerceNum_shape (s : String) (w : PyVal) (h : coerceNum s = some w) :
    (∃ n, w = PyVal.int n) ∨ (∃ q, w = PyVal.float q) := by
  unfold coerceNum at h
  split at h
  · obtain ⟨q, _, rfl⟩ := Option.map_eq_some'.mp h
    exact Or.inr ⟨q, rfl⟩
  · obtain ⟨n, _, rfl⟩ := Option.map_eq_some'.mp h
    exact Or.inl ⟨n, rfl⟩

/-- Lookup through the int-first coercion applier. -/
theorem dlookup_applyCoerceNum (d : PyDict) (key k2 : String) :
    dlookup (applyCoerceNum d key) k2 =
      if k2 = key then
        (dlookup d key).map (fun v =>
          match v with
          | PyVal.str s => (coerceNum s).getD (PyVal.str s)
          | v => v)
      else dlookup d k2 := by
  unfold applyCoerceNum
  by_cases hk : k2 = key
  · subst hk
    cases hv : dlookup d k2 with
    | none => simp [hv]
    | some v =>
      cases v with
      | str s =>
        cases hcs : coerceNum s with
        | none => simp [hv, hcs]
        | some w => simp [hv, hcs, dlookup_dset_self]
      | int n => simp [hv]
      | float q => simp [hv]
      | bool b => simp [hv]
      | none => simp [hv]
  · cases hv : dlookup d key with
    | none => simp [hk]
    | some v =>
      cases v with
      | str s =>
        cases hcs : coerceNum s with
        | none => simp [hk, hcs]
        | some w => simp [hk, hcs, dlookup_dset_ne _ _ _ _ hk]
      | int n => simp [hk]
      | float q => simp [hk]
      | bool b => simp [hk]
      | none => simp [hk]

/-- Lookup through the float coercion applier. -/
theorem dlookup_applyCoerceFloat (d : PyDict) (key k2 : String) :
    dlookup (applyCoerceFloat d key) k2 =
      if k2 = key then
        (dlookup d key).map (fun v =>
          match v with
          | PyVal.str s =>
            (match pyFloat s with
             | some q => PyVal.float q
             | _ => PyVal.str s)
          | v => v)
      else dlookup d k2 := by
  unfold applyCoerceFloat
  by_cases hk : k2 = key
  · subst hk
    cases hv : dlookup d k2 with
    | none => simp [hv]
    | some v =>
      cases v with
      | str s =>
        cases hcs : pyFloat s with
        | none => simp [hv, hcs]
        | some q => simp [hv, hcs, dlookup_dset_self]
      | int n => simp [hv]
      | float q => simp [hv]
      | bool b => simp [hv]
      | none => simp [hv]
  · cases hv : dlookup d key with
    | none => simp [hk]
    | some v =>
      cases v with
      | str s =>
        cases hcs : pyFloat s with
        | none => simp [hk, hcs]
        | some q => simp [hk, hcs, dlookup_dset_ne _ _ _ _ hk]
      | int n => simp [hk]
      | float q => simp [hk]
      | bool b => simp [hk]
      | none => simp [hk]

/-- The coercion appliers preserve the key list. -/
theorem map_fst_applyCoerceNum (d : PyDict) (key : String) :
    (applyCoerceNum d key).map Prod.fst = d.map Prod.fst := by
  unfold applyCoerceNum
  cases hv : dlookup d key with
  | none => rfl
  | some v =>
    cases v with
    | str s =>
      cases hcs : coerceNum s with
      | none => simp [hcs]
      | some w =>
        simp only [hcs]
        exact dset_map_fst_of_mem d key _ w hv
    | int n => rfl
    | float q => rfl
    | bool b => rfl
    | none => rfl

/-- The float coercion applier preserves the key list. -/
theorem map_fst_applyCoerceFloat (d : PyDict) (key : String) :
    (applyCoerceFloat d key).map Prod.fst = d.map Prod.fst := by
  unfold applyCoerceFloat
  cases hv : dlookup d key with
  | none => rfl
  | some v =>
    cases v with
    | str s =>
      cases hcs : pyFloat s with
      | none => simp [hcs]
      | some q =>
        simp only [hcs]
        exact dset_map_fst_of_mem d key _ _ hv
    | int n => rfl
    | float q => rfl
    | bool b => rfl
    | none => rfl

/-- The turdsize coercion statement succeeds exactly as the applier
describes when every string value under the key is coercible. -/
theorem potrace_step1 (d : PyDict)
    (h : ∀ s, dlookup d "turdsize" = some (PyVal.str s) →
      ∃ w, coerceNum s = some w) :
    coerceKeyIntFloat d "turdsize" = Except.ok (applyCoerceNum d "turdsize") := by
  unfold coerceKeyIntFloat applyCoerceNum
  cases hv : dlookup d "turdsize" with
  | none => rfl
  | some v =>
    cases v with
    | str s =>
      obtain ⟨w, hw⟩ := h s hv
      simp [hw]
    | int n => rfl
    | float q => rfl
    | bool b => rfl
    | none => rfl

/-- The alphamax coercion statement succeeds exactly as the applier
describes when every string value under the key parses as a float. -/
theorem potrace_step2 (d : PyDict)
    (h : ∀ s, dlookup d "alphamax" = some (PyVal.str s) →
      ∃ q, pyFloat s = some q) :
    coerceKeyFloat d "alphamax" = Except.ok (applyCoerceFloat d "alphamax") := by
  unfold coerceKeyFloat applyCoerceFloat
  cases hv : dlookup d "alphamax" with
  | none => rfl
  | some v =>
    cases v with
    | str s =>
      obtain ⟨q, hq⟩ := h s hv
      simp [hq]
    | int n => rfl
    | float q => rfl
    | bool b => rfl
    | none => rfl

/-- Lookup through the whole potrace coercion phase is pointwise
`potraceCoerceVal`. -/
theorem dlookup_potrace_applied (d : PyDict) (k2 : String) :
    dlookup (applyCoerceFloat (applyCoerceNum d "turdsize") "alphamax") k2 =
      (dlookup d k2).map (potraceCoerceVal k2) := by
  rw [dlookup_applyCoerceFloat]
  by_cases hA : k2 = "alphamax"
  · subst hA
    rw [if_pos rfl, dlookup_applyCoerceNum]
    simp only [show ("alphamax" : String) ≠ "turdsize" from by decide, if_neg]
    cases ho : dlookup d "alphamax" with
    | none => rfl
    | some v => cases v <;> simp [potraceCoerceVal]
  · rw [if_neg hA, dlookup_applyCoerceNum]
    by_cases hT : k2 = "turdsize"
    · subst hT
      rw [if_pos rfl]
      cases ho : dlookup d "turdsize" with
      | none => rfl
      | some v => cases v <;> simp [potraceCoerceVal]
    · rw [if_neg hT]
      cases ho : dlookup d k2 with
      | none => rfl
      | some v => simp [potraceCoerceVal, hT, hA]

/-- A valid turdsize entry is numeric and in range after coercion. -/
theorem potrace_turdsize_coerced_ok (u : PyVal)
    (hk : potraceEntryOk ("turdsize", u) = true) :
    numIn (potraceCoerceVal "turdsize" u) 0 100 = true := by
  cases u with
  | str s =>
    simp only [potraceEntryOk] at hk
    simp at hk
    cases hcs : coerceNum s with
    | none => rw [hcs] at hk; simp at hk
    | some w =>
      rw [hcs] at hk
      simpa [potraceCoerceVal, hcs] using hk
  | int n => simpa [potraceCoerceVal, potraceEntryOk] using hk
  | float q => simpa [potraceCoerceVal, potraceEntryOk] using hk
  | bool b => simpa [potraceCoerceVal, potraceEntryOk] using hk
  | none => simpa [potraceCoerceVal, potraceEntryOk] using hk

/-- A valid alphamax entry is numeric and in range after coercion. -/
theorem potrace_alphamax_coerced_ok (u : PyVal)
    (hk : potraceEntryOk ("alphamax", u) = true) :
    numIn (potraceCoerceVal "alphamax" u) 0 2 = true := by
  cases u with
  | str s =>
    simp only [potraceEntryOk] at hk
    simp at hk
    cases hq : pyFloat s with
    | none => rw [hq] at hk; simp at hk
    | some q =>
      rw [hq] at hk
      simp at hk
      simp [potraceCoerceVal, hq, numIn, isNum, ratOf, hk.1, hk.2]
  | int n => simpa [potraceCoerceVal, potraceEntryOk, numIn] using hk
  | float q => simpa [potraceCoerceVal, potraceEntryOk, numIn] using hk
  | bool b => simpa [potraceCoerceVal, potraceEntryOk, numIn] using hk
  | none => simpa [potraceCoerceVal, potraceEntryOk, numIn] using hk

/-- The coercion phase leaves keys other than turdsize and alphamax
untouched. -/
theorem potraceCoerceVal_other (k : String) (u : PyVal)
    (hT : k ≠ "turdsize") (hA : k ≠ "alphamax") :
    potraceCoerceVal k u = u := by
  simp [potraceCoerceVal, hT, hA]

/-- The potrace validator accepts every valid mapping and returns the
coerced dict. -/
theorem validate_potrace_of_valid (d : PyDict) (hall : potraceValid d = true) :
    validate_potrace_params d =
      Except.ok (applyCoerceFloat (applyCoerceNum d "turdsize") "alphamax") := by
  have hent : ∀ k v, dlookup d k = some v → potraceEntryOk (k, v) = true :=
    fun k v hv => List.all_eq_true.mp hall _ (dlookup_mem _ _ _ hv)
  have h1 : coerceKeyIntFloat d "turdsize" =
      Except.ok (applyCoerceNum d "turdsize") := by
    apply potrace_step1
    intro s hs
    have hk := hent _ _ hs
    simp only [potraceEntryOk] at hk
    simp at hk
    cases hcs : coerceNum s with
    | none => rw [hcs] at hk; simp at hk
    | some w => exact ⟨w, rfl⟩
  have hamlook : dlookup (applyCoerceNum d "turdsize") "alphamax" =
      dlookup d "alphamax" := by
    rw [dlookup_applyCoerceNum]
    simp
  have h2 : coerceKeyFloat (applyCoerceNum d "turdsize") "alphamax" =
      Except.ok (applyCoerceFloat (applyCoerceNum d "turdsize") "alphamax") := by
    apply potrace_step2
    intro s hs
    rw [hamlook] at hs
    have hk := hent _ _ hs
    simp only [potraceEntryOk] at hk
    simp at hk
    cases hq : pyFloat s with
    | none => rw [hq] at hk; simp at hk
    | some q => exact ⟨q, rfl⟩
  have hc1 : checkNumRange (applyCoerceFloat (applyCoerceNum d "turdsize")
      "alphamax") "turdsize" 0 100
      "turdsize must be a number between 0 and 100" = Except.ok () := by
    apply checkNumRange_ok
    intro v hv
    rw [dlookup_potrace_applied] at hv
    obtain ⟨u, hu, rfl⟩ := Option.map_eq_some'.mp hv
    exact potrace_turdsize_coerced_ok u (hent _ _ hu)
  have hc2 : checkNumRange (applyCoerceFloat (applyCoerceNum d "turdsize")
      "alphamax") "alphamax" 0 2
      "alphamax must be a number between 0.0 and 2.0" = Except.ok () := by
    apply checkNumRange_ok
    intro v hv
    rw [dlookup_potrace_applied] at hv
    obtain ⟨u, hu, rfl⟩ := Option.map_eq_some'.mp hv
    exact potrace_alphamax_coerced_ok u (hent _ _ hu)
  have hc3 : checkEnum (applyCoerceFloat (applyCoerceNum d "turdsize")
      "alphamax") "turnpolicy" valid_policies = Except.ok () := by
    apply checkEnum_ok
    intro v hv
    rw [dlookup_potrace_applied] at hv
    obtain ⟨u, hu, rfl⟩ := Option.map_eq_some'.mp hv
    have hk := hent _ _ hu
    simp only [potraceEntryOk] at hk
    simp at hk
    rw [potraceCoerceVal_other _ _ (by decide) (by decide)]
    simpa using hk
  have hc4 : checkBool (applyCoerceFloat (applyCoerceNum d "turdsize")
      "alphamax") "invert" = Except.ok () := by
    apply checkBool_ok
    intro v hv
    rw [dlookup_potrace_applied] at hv
    obtain ⟨u, hu, rfl⟩ := Option.map_eq_some'.mp hv
    have hk := hent _ _ hu
    simp only [potraceEntryOk] at hk
    simp at hk
    rw [potraceCoerceVal_other _ _ (by decide) (by decide)]
    exact hk
  have hc5 : checkBool (applyCoerceFloat (applyCoerceNum d "turdsize")
      "alphamax") "opticurve" = Except.ok () := by
    apply checkBool_ok
    intro v hv
    rw [dlookup_potrace_applied] at hv
    obtain ⟨u, hu, rfl⟩ := Option.map_eq_some'.mp hv
    have hk := hent _ _ hu
    simp only [potraceEntryOk] at hk
    simp at hk
    rw [potraceCoerceVal_other _ _ (by decide) (by decide)]
    exact hk
  simp only [validate_potrace_params, h1, h2, hc1, hc2, hc3, hc4, hc5]

/-- Keys outside the key list of an association list look up to nothing. -/
theorem dlookup_eq_none_of_not_mem (d : List (String × α)) (k : String)
    (h : k ∉ d.map Prod.fst) : dlookup d k = Option.none := by
  induction d with
  | nil => rfl
  | cons p d ih =>
    obtain ⟨a, b⟩ := p
    simp only [List.map_cons, List.mem_cons] at h
    push_neg at h
    simp only [dlookup]
    rw [if_neg (Ne.symm h.1), ih h.2]

/-- The vtracer coercion of one value is idempotent. -/
theorem vtracerCoerceVal_idem (k : String) (v : PyVal) :
    vtracerCoerceVal k (vtracerCoerceVal k v) = vtracerCoerceVal k v := by
  unfold vtracerCoerceVal
  cases hs : tableSpec k with
  | none => rfl
  | some spec =>
    by_cases hc : spec.convert
    · simp only [hc, if_pos rfl]
      cases v with
      | str s =>
        cases hcs : coerceNum s with
        | none => simp [hcs]
        | some w =>
          simp only [hcs, Option.getD_some]
          rcases coerceNum_shape s w hcs with ⟨n, rfl⟩ | ⟨q, rfl⟩ <;> rfl
      | int n => rfl
      | float q => rfl
      | bool b => rfl
      | none => rfl
    · simp [hc]

/-- One pass of the vtracer validation loop on a valid entry succeeds and
acts as the coercion applier. -/
theorem validateVtKey_of_valid (e : PyDict) (k : String) (spec : VSpec)
    (hent : ∀ v, dlookup e k = some v → specValid spec v = true) :
    validateVtKey e k spec = Except.ok (applyVtCoerce e k spec) := by
  unfold validateVtKey applyVtCoerce
  cases hv : dlookup e k with
  | none => rfl
  | some v =>
    have hsv := hent v hv
    cases v with
    | str s =>
      by_cases hc : spec.convert
      · simp only [specValid, hc] at hsv
        cases hcs : coerceNum s with
        | none => rw [hcs] at hsv; simp at hsv
        | some w =>
          rw [hcs] at hsv
          simp only [specChecksOk, Bool.and_eq_true] at hsv
          simp [hc, hcs, hsv.1.1, hsv.1.2, hsv.2]
      · have hc2 : spec.convert = false := by
          cases hq : spec.convert
          · rfl
          · exact absurd hq hc
        simp only [specValid, hc2] at hsv
        simp only [specChecksOk, Bool.and_eq_true] at hsv
        simp [hc2, hsv.1.1, hsv.1.2, hsv.2]
    | int n =>
      simp only [specValid, specChecksOk, Bool.and_eq_true] at hsv
      cases hcv : spec.convert <;> simp [hsv.1.1, hsv.1.2, hsv.2]
    | float q =>
      simp only [specValid, specChecksOk, Bool.and_eq_true] at hsv
      cases hcv : spec.convert <;> simp [hsv.1.1, hsv.1.2, hsv.2]
    | bool b =>
      simp only [specValid, specChecksOk, Bool.and_eq_true] at hsv
      cases hcv : spec.convert <;> simp [hsv.1.1, hsv.1.2, hsv.2]
    | none =>
      simp only [specValid, specChecksOk, Bool.and_eq_true] at hsv
      cases hcv : spec.convert <;> simp [hsv.1.1, hsv.1.2, hsv.2]

/-- Lookup through one vtracer coercion applier. -/
theorem dlookup_applyVtCoerce (e : PyDict) (k k2 : String) (spec : VSpec)
    (hspec : tableSpec k = some spec) :
    dlookup (applyVtCoerce e k spec) k2 =
      if k2 = k then (dlookup e k).map (vtracerCoerceVal k2)
      else dlookup e k2 := by
  unfold applyVtCoerce
  by_cases hk : k2 = k
  · subst hk
    rw [if_pos rfl]
    cases hv : dlookup e k2 with
    | none => cases spec.convert <;> simp [hv]
    | some v =>
      cases v with
      | str s =>
        by_cases hc : spec.convert
        · cases hcs : coerceNum s with
          | none => simp [hc, hcs, hv, vtracerCoerceVal, hspec]
          | some w => simp [hc, hcs, hv, vtracerCoerceVal, hspec, dlookup_dset_self]
        · have hc2 : spec.convert = false := by
            cases hq : spec.convert
            · rfl
            · exact absurd hq hc
          simp [hc2, hv, vtracerCoerceVal, hspec]
      | int n => cases hcv : spec.convert <;> simp [hv, vtracerCoerceVal, hspec, hcv]
      | float q => cases hcv : spec.convert <;> simp [hv, vtracerCoerceVal, hspec, hcv]
      | bool b => cases hcv : spec.convert <;> simp [hv, vtracerCoerceVal, hspec, hcv]
      | none => cases hcv : spec.convert <;> simp [hv, vtracerCoerceVal, hspec, hcv]
  · rw [if_neg hk]
    cases hv : dlookup e k with
    | none => rfl
    | some v =>
      cases v with
      | str s =>
        by_cases hc : spec.convert
        · cases hcs : coerceNum s with
          | none => simp [hc, hcs]
          | some w => simp [hc, hcs, dlookup_dset_ne _ _ _ _ hk]
        · have hc2 : spec.convert = false := by
            cases hq : spec.convert
            · rfl
            · exact absurd hq hc
          simp [hc2]
      | int n => cases hcv : spec.convert <;> rfl
      | float q => cases hcv : spec.convert <;> rfl
      | bool b => cases hcv : spec.convert <;> rfl
      | none => cases hcv : spec.convert <;> rfl

/-- One vtracer coercion applier preserves the key list. -/
theorem map_fst_applyVtCoerce (e : PyDict) (k : String) (spec : VSpec) :
    (applyVtCoerce e k spec).map Prod.fst = e.map Prod.fst := by
  unfold applyVtCoerce
  cases hv : dlookup e k with
  | none => rfl
  | some v =>
    cases v with
    | str s =>
      by_cases hc : spec.convert
      · cases hcs : coerceNum s with
        | none => simp [hc, hcs]
        | some w =>
          simp only [hc, hcs]
          exact dset_map_fst_of_mem e k _ w hv
      · have hc2 : spec.convert = false := by
          cases hq : spec.convert
          · rfl
          · exact absurd hq hc
        simp [hc2]
    | int n => cases hcv : spec.convert <;> rfl
    | float q => cases hcv : spec.convert <;> rfl
    | bool b => cases hcv : spec.convert <;> rfl
    | none => cases hcv : spec.convert <;> rfl

/-- One vtracer coercion applier preserves validity of every entry. -/
theorem vtracerValid_applyVtCoerce (e : PyDict) (k : String) (spec : VSpec)
    (hspec : tableSpec k = some spec) (hall : vtracerValid e = true) :
    vtracerValid (applyVtCoerce e k spec) = true := by
  unfold applyVtCoerce
  cases hv : dlookup e k with
  | none => exact hall
  | some v =>
    cases v with
    | str s =>
      by_cases hc : spec.convert
      · cases hcs : coerceNum s with
        | none => simp only [hc, hcs]; exact hall
        | some w =>
          simp only [hc, hcs]
          apply all_dset _ _ _ _ hall
          have hk := List.all_eq_true.mp hall _ (dlookup_mem _ _ _ hv)
          simp only [vtracerEntryOk, hspec] at hk
          simp only [specValid, hc] at hk
          rw [hcs] at hk
          simp only [vtracerEntryOk, hspec]
          rcases coerceNum_shape s w hcs with ⟨n, rfl⟩ | ⟨q, rfl⟩ <;>
            simpa [specValid] using hk
      · have hc2 : spec.convert = false := by
          cases hq : spec.convert
          · rfl
          · exact absurd hq hc
        simp only [hc2]
        exact hall
    | int n => cases hcv : spec.convert <;> exact hall
    | float q => cases hcv : spec.convert <;> exact hall
    | bool b => cases hcv : spec.convert <;> exact hall
    | none => cases hcv : spec.convert <;> exact hall

/-- The vtracer validation loop on a valid mapping: it never raises, it
preserves the key list, and its net effect on every key is the single
pointwise coercion. -/
theorem runValidations_of_valid :
    ∀ (ts : List (String × VSpec)) (e : PyDict),
      vtracerValid e = true →
      (∀ p ∈ ts, tableSpec p.1 = some p.2) →
      ∃ e2, runValidations e ts = Except.ok e2 ∧
        e2.map Prod.fst = e.map Prod.fst ∧
        (∀ k2, dlookup e2 k2 = (dlookup e k2).map
          (fun v => if k2 ∈ ts.map Prod.fst then vtracerCoerceVal k2 v else v)) ∧
        vtracerValid e2 = true := by
  intro ts
  induction ts with
  | nil =>
    intro e hall _
    refine ⟨e, rfl, rfl, ?_, hall⟩
    intro k2
    cases ho : dlookup e k2 <;> simp
  | cons p ts ih =>
    intro e hall hts
    obtain ⟨k, spec⟩ := p
    have hspec : tableSpec k = some spec := hts (k, spec) (List.mem_cons_self _ _)
    have hent : ∀ v, dlookup e k = some v → specValid spec v = true := by
      intro v hv
      have hk := List.all_eq_true.mp hall _ (dlookup_mem _ _ _ hv)
      simpa [vtracerEntryOk, hspec] using hk
    have hstep := validateVtKey_of_valid e k spec hent
    have hv1 := vtracerValid_applyVtCoerce e k spec hspec hall
    obtain ⟨e2, he2, hkeys, hlook, hval⟩ :=
      ih (applyVtCoerce e k spec) hv1 (fun p hp => hts p (List.mem_cons_of_mem _ hp))
    refine ⟨e2, ?_, ?_, ?_, hval⟩
    · simp only [runValidations, hstep, he2]
    · rw [hkeys, map_fst_applyVtCoerce]
    · intro k2
      rw [hlook k2, dlookup_applyVtCoerce e k k2 spec hspec]
      by_cases hk2 : k2 = k
      · subst hk2
        rw [if_pos rfl]
        cases ho : dlookup e k2 with
        | none => simp
        | some v =>
          by_cases hmem : k2 ∈ ts.map Prod.fst
          · simp [hmem, vtracerCoerceVal_idem]
          · simp [hmem]
      · rw [if_neg hk2]
        cases ho : dlookup e k2 with
        | none => simp
        | some v =>
          by_cases hmem : k2 ∈ ts.map Prod.fst
          · simp [hmem, hk2]
          · simp [hmem, hk2]

/-- The vtracer validator accepts every valid mapping, preserving the key
list and acting pointwise as the coercion. -/
theorem validate_vtracer_of_valid (e : PyDict) (hall : vtracerValid e = true) :
    ∃ e2, validate_vtracer_params e = Except.ok e2 ∧
      e2.map Prod.fst = e.map Prod.fst ∧
      (∀ k2, dlookup e2 k2 = (dlookup e k2).map (vtracerCoerceVal k2)) := by
  obtain ⟨e2, he2, hkeys, hlook, _⟩ :=
    runValidations_of_valid vtracer_validations e hall (by decide)
  refine ⟨e2, he2, hkeys, ?_⟩
  intro k2
  rw [hlook k2]
  by_cases hmem : k2 ∈ vtracer_validations.map Prod.fst
  · cases ho : dlookup e k2 <;> simp [hmem]
  · have hnone : tableSpec k2 = Option.none := dlookup_eq_none_of_not_mem _ _ hmem
    cases ho : dlookup e k2 with
    | none => simp
    | some v => simp [hmem, vtracerCoerceVal, hnone]

/-- A string accepted by `pyInt` is also accepted by `pyFloat`, with the
same value: an optionally signed digit string is a decimal literal whose
mantissa is those digits and whose scale and exponent are zero. -/
theorem pyFloat_of_pyInt (s : String) (n : ℤ) (h : pyInt s = some n) :
    pyFloat s = some ((n : ℚ)) := by
  unfold pyInt at h
  obtain ⟨m, hm, hn⟩ := Option.map_eq_some'.mp h
  unfold digitsToNat at hm
  by_cases hne : (signSplit (trimWs s.data)).2.isEmpty
  · rw [if_pos hne] at hm; simp at hm
  · rw [if_neg hne] at hm
    by_cases hdig : (signSplit (trimWs s.data)).2.all Char.isDigit
    · rw [if_pos hdig] at hm
      have hm2 : digitsVal (signSplit (trimWs s.data)).2 = m := Option.some_inj.mp hm
      have htake : (signSplit (trimWs s.data)).2.takeWhile Char.isDigit =
          (signSplit (trimWs s.data)).2 :=
        List.takeWhile_eq_self_iff.mpr (fun a ha => List.all_eq_true.mp hdig a ha)
      have hne2 : (signSplit (trimWs s.data)).2.isEmpty = false := by
        revert hne; cases (signSplit (trimWs s.data)).2.isEmpty <;> simp
      unfold pyFloat
      simp only [htake, List.drop_length, hne2, Bool.not_false, if_true,
        List.append_nil, List.length_nil, pow_zero, Rat.mkRat_one,
        Int.ofNat_eq_coe, hm2]
      rw [← hn]
    · rw [if_neg hdig] at hm; simp at hm

/-- A successful `coerceNum` yields a number whose rational value is the
`pyFloat` reading of the string: the int branch by `pyFloat_of_pyInt`, the
float branch directly. -/
theorem coerceNum_semantic (s : String) (w : PyVal) (h : coerceNum s = some w) :
    isNum w = true ∧ pyFloat s = some (ratOf w) := by
  unfold coerceNum at h
  split at h
  · obtain ⟨q, hq, rfl⟩ := Option.map_eq_some'.mp h
    exact ⟨rfl, hq⟩
  · obtain ⟨n, hn, rfl⟩ := Option.map_eq_some'.mp h
    exact ⟨rfl, pyFloat_of_pyInt s n hn⟩

/-- C4: on a parameter mapping whose recognized keys all satisfy the
engine's declared type/range/enum constraints, each validator returns
successfully; the returned mapping has exactly the input's keys in order,
and each value is the input value transformed by the engine's coercion
map.  That coercion map changes nothing in meaning: it either leaves the
value exactly as supplied or replaces a numeric string with a number of
the same rational value, and on keys outside the engine's recognized set
(potrace: anything but `turdsize`/`alphamax`; vtracer: keys absent from
the validation table) it is the identity, so unrecognized entries pass
through exactly as supplied. -/
theorem C4_valid_mapping_passthrough (d e : PyDict)
    (hd : potraceValid d = true) (he : vtracerValid e = true) :
    (∃ d2, validate_potrace_params d = Except.ok d2 ∧
      d2.map Prod.fst = d.map Prod.fst ∧
      ∀ k, dlookup d2 k = (dlookup d k).map (potraceCoerceVal k)) ∧
    (∃ e2, validate_vtracer_params e = Except.ok e2 ∧
      e2.map Prod.fst = e.map Prod.fst ∧
      ∀ k, dlookup e2 k = (dlookup e k).map (vtracerCoerceVal k)) ∧
    (∀ k v, potraceCoerceVal k v = v ∨
      ∃ s, v = PyVal.str s ∧ isNum (potraceCoerceVal k v) = true ∧
        pyFloat s = some (ratOf (potraceCoerceVal k v))) ∧
    (∀ k v, vtracerCoerceVal k v = v ∨
      ∃ s, v = PyVal.str s ∧ isNum (vtracerCoerceVal k v) = true ∧
        pyFloat s = some (ratOf (vtracerCoerceVal k v))) ∧
    (∀ k v, k ≠ "turdsize" → k ≠ "alphamax" → potraceCoerceVal k v = v) ∧
    (∀ k v, tableSpec k = Option.none → vtracerCoerceVal k v = v) := by
  refine ⟨?_, ?_, ?_, ?_, ?_, ?_⟩
  · exact ⟨_, validate_potrace_of_valid d hd,
      by rw [map_fst_applyCoerceFloat, map_fst_applyCoerceNum],
      fun k => dlookup_potrace_applied d k⟩
  · exact validate_vtracer_of_valid e he
  · intro k v
    by_cases hT : k = "turdsize"
    · cases v with
      | str s =>
        have hred : potraceCoerceVal k (PyVal.str s) =
            (coerceNum s).getD (PyVal.str s) := by
          simp [potraceCoerceVal, hT]
        rw [hred]
        cases hc : coerceNum s with
        | none => exact Or.inl rfl
        | some w =>
          exact Or.inr ⟨s, rfl, (coerceNum_semantic s w hc).1,
            (coerceNum_semantic s w hc).2⟩
      | int n => exact Or.inl (by simp [potraceCoerceVal, hT])
      | float q => exact Or.inl (by simp [potraceCoerceVal, hT])
      | bool b => exact Or.inl (by simp [potraceCoerceVal, hT])
      | none => exact Or.inl (by simp [potraceCoerceVal, hT])
    · by_cases hA : k = "alphamax"
      · cases v with
        | str s =>
          cases hq : pyFloat s with
          | none => exact Or.inl (by simp [potraceCoerceVal, hT, hA, hq])
          | some q =>
            have hred : potraceCoerceVal k (PyVal.str s) = PyVal.float q := by
              simp [potraceCoerceVal, hT, hA, hq]
            rw [hred]
            exact Or.inr ⟨s, rfl, rfl, hq⟩
        | int n => exact Or.inl (by simp [potraceCoerceVal, hT, hA])
        | float q => exact Or.inl (by simp [potraceCoerceVal, hT, hA])
        | bool b => exact Or.inl (by simp [potraceCoerceVal, hT, hA])
        | none => exact Or.inl (by simp [potraceCoerceVal, hT, hA])
      · exact Or.inl (potraceCoerceVal_other k v hT hA)
  · intro k v
    cases hs : tableSpec k with
    | none => exact Or.inl (by simp [vtracerCoerceVal, hs])
    | some spec =>
      by_cases hcv : spec.convert = true
      · cases v with
        | str s =>
          have hred : vtracerCoerceVal k (PyVal.str s) =
              (coerceNum s).getD (PyVal.str s) := by
            simp [vtracerCoerceVal, hs, hcv]
          rw [hred]
          cases hc : coerceNum s with
          | none => exact Or.inl rfl
          | some w =>
            exact Or.inr ⟨s, rfl, (coerceNum_semantic s w hc).1,
              (coerceNum_semantic s w hc).2⟩
        | int n => exact Or.inl (by simp [vtracerCoerceVal, hs, hcv])
        | float q => exact Or.inl (by simp [vtracerCoerceVal, hs, hcv])
        | bool b => exact Or.inl (by simp [vtracerCoerceVal, hs, hcv])
        | none => exact Or.inl (by simp [vtracerCoerceVal, hs, hcv])
      · exact Or.inl (by simp [vtracerCoerceVal, hs, hcv])
  · exact fun k v hT hA => potraceCoerceVal_other k v hT hA
  · intro k v hnone
    simp [vtracerCoerceVal, hnone]

/-- Witness for C4 at concrete valid mappings: potrace with a numeric
string `turdsize`, a boolean flag and an unrecognized key; vtracer with a
valid `colormode`, a numeric string `filter_speckle` and an unrecognized
key. -/
theorem C4_valid_mapping_passthrough_witness :
    potraceValid [("turdsize", PyVal.str "2"), ("invert", PyVal.bool true),
      ("foo", PyVal.str "bar")] = true ∧
    vtracerValid [("colormode", PyVal.str "binary"),
      ("filter_speckle", PyVal.str "4"), ("custom", PyVal.int 7)] = true ∧
    (∃ d2, validate_potrace_params [("turdsize", PyVal.str "2"),
        ("invert", PyVal.bool true), ("foo", PyVal.str "bar")] =
          Except.ok d2 ∧
      d2.map Prod.fst = ([("turdsize", PyVal.str "2"),
        ("invert", PyVal.bool true), ("foo", PyVal.str "bar")] :
          PyDict).map Prod.fst ∧
      ∀ k, dlookup d2 k = (dlookup [("turdsize", PyVal.str "2"),
        ("invert", PyVal.bool true), ("foo", PyVal.str "bar")] k).map
          (potraceCoerceVal k)) ∧
    (∃ e2, validate_vtracer_params [("colormode", PyVal.str "binary"),
        ("filter_speckle", PyVal.str "4"), ("custom", PyVal.int 7)] =
          Except.ok e2 ∧
      e2.map Prod.fst = ([("colormode", PyVal.str "binary"),
        ("filter_speckle", PyVal.str "4"), ("custom", PyVal.int 7)] :
          PyDict).map Prod.fst ∧
      ∀ k, dlookup e2 k = (dlookup [("colormode", PyVal.str "binary"),
        ("filter_speckle", PyVal.str "4"), ("custom", PyVal.int 7)] k).map
          (vtracerCoerceVal k)) := by
  have h := C4_valid_mapping_passthrough
    [("turdsize", PyVal.str "2"), ("invert", PyVal.bool true),
     ("foo", PyVal.str "bar")]
    [("colormode", PyVal.str "binary"), ("filter_speckle", PyVal.str "4"),
     ("custom", PyVal.int 7)]
    (by decide) (by decide)
  exact ⟨by decide, by decide, h.1, h.2.1⟩

/-! Substring-occurrence lemmas for the viewBox-uniqueness claim. -/

theorem countSub_cons (p : List Char) (c : Char) (cs : List Char) :
    countSub p (c :: cs) =
      (if p.isPrefixOf (c :: cs) then 1 else 0) + countSub p cs := rfl

theorem matchCount_cons_zero (m : List Char → Option ℕ) (c : Char)
    (cs : List Char) (h : m (c :: cs) = some 0) :
    matchCount m (c :: cs) = matchCount m cs := by
  show matchCountF m (c :: cs).length (c :: cs) = _
  rw [List.length_cons]
  simp only [matchCountF, h]
  rfl

/-- A pattern matching at some position of `l` is a substring of `l`. -/
theorem hasSub_of_prefix_drop (p : List Char) :
    ∀ (l : List Char) (i : ℕ), p.isPrefixOf (l.drop i) = true →
      hasSub p l = true := by
  intro l
  induction l with
  | nil =>
    intro i h
    rw [List.drop_nil] at h
    simpa [hasSub] using h
  | cons c cs ih =>
    intro i h
    cases i with
    | zero =>
      rw [List.drop_zero] at h
      simp [hasSub, h]
    | succ j =>
      rw [List.drop_succ_cons] at h
      simp [hasSub, ih j h]

/-- No substring occurrence means no match at any position. -/
theorem prefix_drop_false_of_hasSub (p : List Char) :
    ∀ (l : List Char), hasSub p l = false →
      ∀ i, p.isPrefixOf (l.drop i) = false := by
  intro l
  induction l with
  | nil =>
    intro h i
    rw [List.drop_nil]
    simpa [hasSub] using h
  | cons c cs ih =>
    intro h i
    simp only [hasSub, Bool.or_eq_false_iff] at h
    cases i with
    | zero =>
      rw [List.drop_zero]
      exact h.1
    | succ j =>
      rw [List.drop_succ_cons]
      exact ih h.2 j

/-- An occurrence position exists behind every `hasSub`. -/
theorem hasSub_exists (p : List Char) :
    ∀ (l : List Char), hasSub p l = true →
      ∃ i, p.isPrefixOf (l.drop i) = true := by
  intro l
  induction l with
  | nil =>
    intro h
    exact ⟨0, by simpa [hasSub] using h⟩
  | cons c cs ih =>
    intro h
    simp only [hasSub, Bool.or_eq_true] at h
    rcases h with h | h
    · exact ⟨0, by rw [List.drop_zero]; exact h⟩
    · obtain ⟨i, hi⟩ := ih h
      exact ⟨i + 1, by rw [List.drop_succ_cons]; exact hi⟩

/-- Absence of a substring passes to suffixes. -/
theorem hasSub_drop (p l : List Char) (j : ℕ) (h : hasSub p l = false) :
    hasSub p (l.drop j) = false := by
  cases hq : hasSub p (l.drop j) with
  | false => rfl
  | true =>
    obtain ⟨i, hi⟩ := hasSub_exists p _ hq
    rw [List.drop_drop] at hi
    rw [prefix_drop_false_of_hasSub p l h (j + i)] at hi
    exact Bool.noConfusion hi

/-- A prefix of an occurring pattern occurs as well. -/
theorem hasSub_mono (p₁ p₂ l : List Char) (hp : p₁.isPrefixOf p₂ = true)
    (h : hasSub p₂ l = true) : hasSub p₁ l = true := by
  obtain ⟨i, hi⟩ := hasSub_exists p₂ l h
  refine hasSub_of_prefix_drop p₁ l i ?_
  exact List.isPrefixOf_iff_prefix.mpr
    ((List.isPrefixOf_iff_prefix.mp hp).trans (List.isPrefixOf_iff_prefix.mp hi))

/-- Occurrence in the right part of an append. -/
theorem hasSub_append_right (p : List Char) :
    ∀ (x y : List Char), hasSub p y = true → hasSub p (x ++ y) = true := by
  intro x
  induction x with
  | nil => intro y h; exact h
  | cons a x ih =>
    intro y h
    rw [List.cons_append]
    simp only [hasSub, Bool.or_eq_true]
    exact Or.inr (ih y h)

/-- A prefix of an appended list lies in the left part or extends it. -/
theorem prefix_append_cases (p x y : List Char) (h : p <+: x ++ y) :
    p <+: x ∨ ∃ z, p = x ++ z ∧ z <+: y := by
  induction x generalizing p with
  | nil => exact Or.inr ⟨p, rfl, h⟩
  | cons a x ih =>
    cases p with
    | nil => exact Or.inl ( List.nil_prefix)
    | cons b p =>
      rw [List.cons_append] at h
      obtain ⟨hb, hp⟩ := List.cons_prefix_cons.mp h
      rcases ih p hp with h1 | ⟨z, hz, hzy⟩
      · exact Or.inl (List.cons_prefix_cons.mpr ⟨hb, h1⟩)
      · refine Or.inr ⟨z, ?_, hzy⟩
        rw [List.cons_append, hb, hz]

/-- Counting occurrences skips an appended left part that starts none. -/
theorem countSub_append_none (p : List Char) :
    ∀ (z y : List Char),
      (∀ i, i < z.length → p.isPrefixOf ((z ++ y).drop i) = false) →
      countSub p (z ++ y) = countSub p y := by
  intro z
  induction z with
  | nil => intro y _; rfl
  | cons a z ih =>
    intro y hz
    have h0 : p.isPrefixOf (a :: (z ++ y)) = false := by
      simpa using hz 0 (by simp)
    have hrest : ∀ i, i < z.length → p.isPrefixOf ((z ++ y).drop i) = false := by
      intro i hi
      simpa using hz (i + 1) (by simpa using Nat.succ_lt_succ hi)
    rw [List.cons_append, countSub_cons]
    simp [h0, ih y hrest]

/-- Counting a pattern headed by `v` skips `v`-free text. -/
theorem countSub_no_head (q : List Char) :
    ∀ (z y : List Char), (∀ c ∈ z, ¬c = 'v') →
      countSub ('v' :: q) (z ++ y) = countSub ('v' :: q) y := by
  intro z
  induction z with
  | nil => intro y _; rfl
  | cons a z ih =>
    intro y hz
    have ha : ¬a = 'v' := hz a (List.mem_cons_self a z)
    have h0 : ('v' :: q).isPrefixOf (a :: (z ++ y)) = false := by
      cases hb : ('v' :: q).isPrefixOf (a :: (z ++ y)) with
      | false => rfl
      | true =>
        have hva : 'v' = a :=
          (List.cons_prefix_cons.mp (List.isPrefixOf_iff_prefix.mp hb)).1
        exact absurd hva.symm ha
    rw [List.cons_append, countSub_cons]
    simp [h0, ih y (fun c hc => hz c (List.mem_cons_of_mem a hc))]

/-- Each digit character is a digit. -/
theorem digitChar_isDigit : ∀ m, m < 10 → (Nat.digitChar m).isDigit = true := by
  decide

/-- Base-10 digit extraction over a digit accumulator yields digits. -/
theorem toDigitsCore_digits :
    ∀ (f n : ℕ) (acc : List Char), (∀ c ∈ acc, c.isDigit = true) →
      ∀ c ∈ Nat.toDigitsCore 10 f n acc, c.isDigit = true := by
  intro f
  induction f with
  | zero =>
    intro n acc hacc c hc
    exact hacc c hc
  | succ f ih =>
    intro n acc hacc c hc
    simp only [Nat.toDigitsCore] at hc
    by_cases hz : n / 10 = 0
    · rw [if_pos hz] at hc
      rcases List.mem_cons.mp hc with h | h
      · rw [h]
        exact digitChar_isDigit _ (Nat.mod_lt _ (by decide))
      · exact hacc c h
    · rw [if_neg hz] at hc
      refine ih (n / 10) _ ?_ c hc
      intro c2 hc2
      rcases List.mem_cons.mp hc2 with h | h
      · rw [h]
        exact digitChar_isDigit _ (Nat.mod_lt _ (by decide))
      · exact hacc c2 h

/-- Decimal representations consist of digit characters. -/
theorem repr_digits (n : ℕ) : ∀ c ∈ (Nat.repr n).data, c.isDigit = true :=
  toDigitsCore_digits (n + 1) n [] (fun c hc => absurd hc (List.not_mem_nil c))

/-- The replacement attribute text starts with `v`. -/
theorem nvChars_eq_cons (w h : ℕ) :
    nvChars w h = 'v' :: ("iewBox=\"0 0 ".data ++ (Nat.repr w).data
      ++ " ".data ++ (Nat.repr h).data ++ "\"".data) := by
  unfold nvChars
  rw [show ("viewBox=\"0 0 " : String).data
      = 'v' :: ("iewBox=\"0 0 " : String).data from by decide]
  rfl

/-- After its head, the replacement attribute text contains no `v`. -/
theorem nv_tail_no_v (a b : ℕ) :
    ∀ c ∈ ("iewBox=\"0 0 ".data ++ (Nat.repr a).data ++ " ".data
      ++ (Nat.repr b).data ++ "\"".data), ¬c = 'v' := by
  intro c hc hv
  subst hv
  simp only [List.mem_append] at hc
  rcases hc with ((((h1 | h2) | h3) | h4) | h5)
  · exact absurd h1 (by decide)
  · exact absurd (repr_digits a _ h2) (by decide)
  · exact absurd h3 (by decide)
  · exact absurd (repr_digits b _ h4) (by decide)
  · exact absurd h5 (by decide)

theorem isPrefixOf_append_left (p x y : List Char) (h : p.isPrefixOf x = true) :
    p.isPrefixOf (x ++ y) = true :=
  List.isPrefixOf_iff_prefix.mpr
    ((List.isPrefixOf_iff_prefix.mp h).trans (List.prefix_append x y))

/-- The viewBox pattern heads the replacement attribute text. -/
theorem vbPat_prefix_nv (w h : ℕ) : vbPat.isPrefixOf (nvChars w h) = true := by
  unfold nvChars
  apply isPrefixOf_append_left
  apply isPrefixOf_append_left
  apply isPrefixOf_append_left
  apply isPrefixOf_append_left
  decide

/-- The inserted replacement text carries exactly one `viewBox="`
occurrence at its head. -/
theorem countSub_nv_block (w h : ℕ) (y : List Char) :
    countSub vbPat (nvChars w h ++ y) = 1 + countSub vbPat y := by
  have hpre : vbPat.isPrefixOf (nvChars w h ++ y) = true :=
    isPrefixOf_append_left _ _ _ (vbPat_prefix_nv w h)
  rw [nvChars_eq_cons, List.cons_append] at hpre ⊢
  rw [countSub_cons, if_pos hpre]
  have hrest : countSub vbPat ("iewBox=\"0 0 ".data ++ (Nat.repr w).data
      ++ " ".data ++ (Nat.repr h).data ++ "\"".data ++ y) = countSub vbPat y := by
    rw [show vbPat = 'v' :: "iewBox=\"".data from by decide]
    exact countSub_no_head _ _ _ (nv_tail_no_v w h)
  rw [hrest]

/-- The viewBox pattern never starts at an inserted space. -/
theorem vbPat_not_prefix_space (rest : List Char) :
    vbPat.isPrefixOf (' ' :: rest) = false := by
  cases hq : vbPat.isPrefixOf (' ' :: rest) with
  | false => rfl
  | true =>
    have h2 := List.isPrefixOf_iff_prefix.mp hq
    rw [show vbPat = 'v' :: "iewBox=\"".data from by decide] at h2
    obtain ⟨hvs, -⟩ := List.cons_prefix_cons.mp h2
    exact absurd hvs (by decide)

/-- With no `viewBox=` text in the input, no `viewBox="` occurrence starts
inside the matched root-tag text, and none can cross into the space that
follows it. -/
theorem no_vbPat_in_take (c : Char) (cs rest : List Char) (n : ℕ)
    (hvb : hasSub vbKey (c :: cs) = false) :
    ∀ i, i < ((c :: cs).take (n + 1)).length →
      vbPat.isPrefixOf (((c :: cs).take (n + 1) ++ ' ' :: rest).drop i)
        = false := by
  intro i hi
  cases hq : vbPat.isPrefixOf (((c :: cs).take (n + 1) ++ ' ' :: rest).drop i)
      with
  | false => rfl
  | true =>
    exfalso
    rw [List.drop_append_of_le_length (le_of_lt hi)] at hq
    have h2 := List.isPrefixOf_iff_prefix.mp hq
    have hfalse : vbPat <+: ((c :: cs).take (n + 1)).drop i → False := by
      intro hc1
      rw [List.drop_take] at hc1
      have hdp : vbPat <+: (c :: cs).drop i :=
        hc1.trans ( List.take_prefix _ _)
      have hkey : hasSub vbKey (c :: cs) = true :=
        hasSub_mono vbKey vbPat _ (by decide)
          (hasSub_of_prefix_drop vbPat _ i (List.isPrefixOf_iff_prefix.mpr hdp))
      rw [hkey] at hvb
      exact Bool.noConfusion hvb
    rcases prefix_append_cases _ _ _ h2 with hc1 | ⟨z, hz, hzy⟩
    · exact hfalse hc1
    · cases z with
      | nil =>
        refine hfalse ?_
        rw [hz, List.append_nil]
      | cons d z =>
        obtain ⟨hd, -⟩ := List.cons_prefix_cons.mp hzy
        subst hd
        have hmem : ' ' ∈ vbPat := by
          rw [hz]
          exact List.mem_append_right _ (List.mem_cons_self _ _)
        exact absurd hmem (by decide)

/-- A space-free pattern that prefixes the root-tag substitution output
also prefixes the input: a replacement starts with the matched text
itself, and extending past it crosses the inserted space. -/
theorem isPrefixOf_subSvg (nv : List Char) :
    ∀ (pat : List Char), (' ' ∈ pat → False) → ∀ (l : List Char),
      pat.isPrefixOf (subF svgMatchAt (fun mt => mt ++ ' ' :: nv) l) = true →
      pat.isPrefixOf l = true := by
  intro pat
  induction pat with
  | nil => intro _ l _; cases l <;> rfl
  | cons p₀ pat ih =>
    intro hsp l h
    match l with
    | [] =>
      rw [subF_nil] at h
      exact h
    | c :: cs =>
      rcases hm : svgMatchAt (c :: cs) with _ | n
      · rw [subF_cons_none _ _ _ _ hm] at h
        obtain ⟨hb, hp⟩ :=
          List.cons_prefix_cons.mp (List.isPrefixOf_iff_prefix.mp h)
        refine List.isPrefixOf_iff_prefix.mpr
          (List.cons_prefix_cons.mpr ⟨hb, ?_⟩)
        exact List.isPrefixOf_iff_prefix.mp
          (ih (fun hm2 => hsp (List.mem_cons_of_mem _ hm2)) cs
            (List.isPrefixOf_iff_prefix.mpr hp))
      · match n with
        | 0 =>
          rw [subF_cons_zero _ _ _ _ hm] at h
          obtain ⟨hb, hp⟩ :=
            List.cons_prefix_cons.mp (List.isPrefixOf_iff_prefix.mp h)
          refine List.isPrefixOf_iff_prefix.mpr
            (List.cons_prefix_cons.mpr ⟨hb, ?_⟩)
          exact List.isPrefixOf_iff_prefix.mp
            (ih (fun hm2 => hsp (List.mem_cons_of_mem _ hm2)) cs
              (List.isPrefixOf_iff_prefix.mpr hp))
        | n + 1 =>
          rw [subF_cons_match _ _ _ _ _ hm] at h
          rw [List.append_assoc, List.cons_append] at h
          have h2 := List.isPrefixOf_iff_prefix.mp h
          rcases prefix_append_cases _ _ _ h2 with hc1 | ⟨z, hz, hzy⟩
          · exact List.isPrefixOf_iff_prefix.mpr
              (hc1.trans ( List.take_prefix _ _))
          · cases z with
            | nil =>
              refine List.isPrefixOf_iff_prefix.mpr ?_
              rw [hz, List.append_nil]
              exact List.take_prefix _ _
            | cons d z =>
              obtain ⟨hd, -⟩ := List.cons_prefix_cons.mp hzy
              subst hd
              refine (hsp ?_).elim
              rw [hz]
              exact List.mem_append_right _ (List.mem_cons_self _ _)

/-- With no `viewBox=` text in the input, each `viewBox="` occurrence of
the root-tag substitution output heads one inserted replacement, so the
occurrence count equals the match count. -/
theorem countSub_subSvg (w h : ℕ) :
    ∀ (k : ℕ) (l : List Char), l.length ≤ k → hasSub vbKey l = false →
      countSub vbPat (subSvgTag (nvChars w h) l) = matchCount svgMatchAt l := by
  intro k
  induction k with
  | zero =>
    intro l hl _
    rw [List.length_eq_zero.mp (Nat.le_zero.mp hl)]
    show countSub vbPat ([] : List Char) = 0
    decide
  | succ k ih =>
    intro l hl hvb
    unfold subSvgTag
    match l with
    | [] =>
      show countSub vbPat ([] : List Char) = 0
      decide
    | c :: cs =>
      have hvbcs : hasSub vbKey cs = false := hasSub_drop vbKey (c :: cs) 1 hvb
      have hcs : cs.length ≤ k := by simpa using hl
      rcases hm : svgMatchAt (c :: cs) with _ | n
      · rw [subF_cons_none _ _ _ _ hm, matchCount_cons_none _ _ _ hm,
          countSub_cons]
        have h0 : vbPat.isPrefixOf (c :: subF svgMatchAt
            (fun mt => mt ++ ' ' :: nvChars w h) cs) = false := by
          cases hq : vbPat.isPrefixOf (c :: subF svgMatchAt
              (fun mt => mt ++ ' ' :: nvChars w h) cs) with
          | false => rfl
          | true =>
            exfalso
            have hpre : vbPat.isPrefixOf (c :: cs) = true := by
              apply isPrefixOf_subSvg (nvChars w h) vbPat (by decide) (c :: cs)
              rw [subF_cons_none _ _ _ _ hm]
              exact hq
            have hkey : hasSub vbKey (c :: cs) = true :=
              hasSub_mono vbKey vbPat _ (by decide)
                (hasSub_of_prefix_drop vbPat _ 0
                  (by rw [List.drop_zero]; exact hpre))
            rw [hkey] at hvb
            exact Bool.noConfusion hvb
        rw [if_neg (by simp [h0])]
        rw [Nat.zero_add]
        exact ih cs hcs hvbcs
      · match n with
        | 0 =>
          rw [subF_cons_zero _ _ _ _ hm, matchCount_cons_zero _ _ _ hm,
            countSub_cons]
          have h0 : vbPat.isPrefixOf (c :: subF svgMatchAt
              (fun mt => mt ++ ' ' :: nvChars w h) cs) = false := by
            cases hq : vbPat.isPrefixOf (c :: subF svgMatchAt
                (fun mt => mt ++ ' ' :: nvChars w h) cs) with
            | false => rfl
            | true =>
              exfalso
              have hpre : vbPat.isPrefixOf (c :: cs) = true := by
                apply isPrefixOf_subSvg (nvChars w h) vbPat (by decide) (c :: cs)
                rw [subF_cons_zero _ _ _ _ hm]
                exact hq
              have hkey : hasSub vbKey (c :: cs) = true :=
                hasSub_mono vbKey vbPat _ (by decide)
                  (hasSub_of_prefix_drop vbPat _ 0
                    (by rw [List.drop_zero]; exact hpre))
              rw [hkey] at hvb
              exact Bool.noConfusion hvb
          rw [if_neg (by simp [h0])]
          rw [Nat.zero_add]
          exact ih cs hcs hvbcs
        | n + 1 =>
          have hlen2 : ((c :: cs).drop (n + 1)).length ≤ k := by
            rw [List.length_drop, List.length_cons]
            omega
          have hvbdrop : hasSub vbKey ((c :: cs).drop (n + 1)) = false :=
            hasSub_drop _ _ _ hvb
          rw [matchCount_cons_match _ _ _ _ hm, subF_cons_match _ _ _ _ _ hm]
          generalize hX : subF svgMatchAt (fun mt => mt ++ ' ' :: nvChars w h)
            ((c :: cs).drop (n + 1)) = X
          have hrecX : countSub vbPat X
              = matchCount svgMatchAt ((c :: cs).drop (n + 1)) := by
            rw [← hX]
            exact ih ((c :: cs).drop (n + 1)) hlen2 hvbdrop
          rw [List.append_assoc, List.cons_append]
          rw [countSub_append_none vbPat ((c :: cs).take (n + 1))
            (' ' :: (nvChars w h ++ X))
            (no_vbPat_in_take c cs (nvChars w h ++ X) n hvb)]
          rw [countSub_cons, if_neg (by simp [vbPat_not_prefix_space])]
          rw [Nat.zero_add, countSub_nv_block w h X, hrecX]
          exact Nat.add_comm 1 _

/-- Whenever a root-tag match exists, the substitution output contains the
inserted attribute text. -/
theorem hasSub_nv_subSvg (w h : ℕ) :
    ∀ (k : ℕ) (l : List Char), l.length ≤ k → matchCount svgMatchAt l ≠ 0 →
      hasSub (nvChars w h) (subSvgTag (nvChars w h) l) = true := by
  intro k
  induction k with
  | zero =>
    intro l hl hmc
    rw [List.length_eq_zero.mp (Nat.le_zero.mp hl)] at hmc
    exact absurd rfl hmc
  | succ k ih =>
    intro l hl hmc
    unfold subSvgTag
    match l with
    | [] => exact absurd rfl hmc
    | c :: cs =>
      have hcs : cs.length ≤ k := by simpa using hl
      rcases hm : svgMatchAt (c :: cs) with _ | n
      · rw [subF_cons_none _ _ _ _ hm]
        rw [matchCount_cons_none _ _ _ hm] at hmc
        simp only [hasSub, Bool.or_eq_true]
        exact Or.inr (ih cs hcs hmc)
      · match n with
        | 0 =>
          rw [subF_cons_zero _ _ _ _ hm]
          rw [matchCount_cons_zero _ _ _ hm] at hmc
          simp only [hasSub, Bool.or_eq_true]
          exact Or.inr (ih cs hcs hmc)
        | n + 1 =>
          rw [subF_cons_match _ _ _ _ _ hm]
          rw [List.append_assoc]
          apply hasSub_append_right
          rw [List.cons_append]
          refine hasSub_of_prefix_drop _ _ 1 ?_
          rw [List.drop_succ_cons, List.drop_zero]
          exact isPrefixOf_append_left _ _ _
            (List.isPrefixOf_iff_prefix.mpr List.prefix_rfl)

/-- C1, counterexample to the universal claim: the normalizer output does
not always contain exactly one viewBox attribute.  On plain text with no
root markup tag (here `x`, with width 100 and height 50) the output is
the input unchanged and contains no `viewBox="` occurrence at all. -/
theorem C1_viewbox_unique_counterexample :
    normalize_svg_dimensions "x" 100 50 = "x" ∧
    ¬countSub vbPat (normalize_svg_dimensions "x" 100 50).data = 1 := by
  constructor
  · decide
  · decide

/-- C1 (amended): on input where the width/height-stripping patterns match
nowhere, the text `viewBox=` does not occur, and the root-tag pattern
`<svg[^>]*` matches exactly once, the normalizer output contains exactly
one `viewBox="` occurrence, and it contains the inserted attribute text
`viewBox="0 0 w h"` — the unique viewBox attribute carries the original
dimensions. -/
theorem C1_viewbox_unique_amended (s : String) (w h : ℕ)
    (hw : ∀ i < s.data.length,
      wsAttrMatchAt widthPat (s.data.drop i) = Option.none)
    (hh : ∀ i < s.data.length,
      wsAttrMatchAt heightPat (s.data.drop i) = Option.none)
    (hvb : hasSub vbKey s.data = false)
    (hsvg : matchCount svgMatchAt s.data = 1) :
    countSub vbPat (normalize_svg_dimensions s w h).data = 1 ∧
    hasSub (nvChars w h) (normalize_svg_dimensions s w h).data = true := by
  obtain ⟨d⟩ := s
  have e1 : subWidth d = d :=
    subF_eq_self _ _ _ (no_match_all _ (by decide) _ hw)
  have e2 : subHeight d = d :=
    subF_eq_self _ _ _ (no_match_all _ (by decide) _ hh)
  have hcore : normalizeCore d w h = subSvgTag (nvChars w h) d := by
    unfold normalizeCore
    rw [e1, e2]
    simp [show hasSub vbKey d = false from hvb]
  have hout : (normalize_svg_dimensions (String.mk d) w h).data
      = subSvgTag (nvChars w h) d := by
    show (String.mk (normalizeCore d w h)).data = _
    rw [hcore]
  rw [hout]
  constructor
  · rw [countSub_subSvg w h d.length d (le_refl _) hvb]
    exact hsvg
  · refine hasSub_nv_subSvg w h d.length d (le_refl _) ?_
    rw [show matchCount svgMatchAt d = 1 from hsvg]
    exact one_ne_zero

/-- Witness for the amended C1 at `<svg>` with width 100 and height 50:
the hypotheses hold and the output carries the single inserted viewBox. -/
theorem C1_viewbox_unique_witness :
    matchCount svgMatchAt ("<svg>" : String).data = 1 ∧
    hasSub vbKey ("<svg>" : String).data = false ∧
    countSub vbPat (normalize_svg_dimensions "<svg>" 100 50).data = 1 ∧
    hasSub (nvChars 100 50) (normalize_svg_dimensions "<svg>" 100 50).data
      = true := by
  have h := C1_viewbox_unique_amended "<svg>" 100 50 (by decide) (by decide)
    (by decide) (by decide)
  exact ⟨by decide, by decide, h.1, h.2⟩
